import Mathlib

/-!
# DHT single-wire read (`read_from_dht`, sensor.c)

A shallow embedding of `read_from_dht` from `sensor.c` together with the
constants of `sensor.h`, and theorems about the sampling loop, the bit
accumulator, the validation test and the conversion of the raw frame.

Modelling conventions.

* The data line is a function from the number of the `gpio_get(DHT_PIN)` call
  (counted from 0 within one call of `read_from_dht`) to the level returned.
* `int data[5]`, `uint count`, `uint received_data_bits` and `uint i` are
  natural numbers: every element of `data` receives at most eight
  shift-and-or steps starting from 0, and the counters stay below 256, so no
  machine arithmetic wraps.
* A store to `data[k]` with `k` outside `0..4` is undefined behaviour in C; the
  model stops there with `Exit.out_of_bounds`.
* A `float` is the rational number it stands for. The integer operands of the
  conversions are below 2^16 and so are exact as `float`. The division by 10
  gives the `float` nearest to the quotient (`toFloat32`: IEEE 754 binary32,
  a significand of 24 bits, round to nearest, ties to even). The range of the
  exponent is not modelled: the quotients of this program are 0 or lie
  between 1/10 and 6553.5. The comparisons with 100 and 125, both exact as
  `float`, and the negation are exact.
* Fields `reads`, `delays`, `data_writes` and `trace` of the loop state are
  instrumentation: they count or record what the loop does and are never
  read by the program.
-/

namespace DHT

/-! ## Constants (sensor.h) -/

/-- The constant `const uint DHT_PIN = 15;`. -/
def DHT_PIN : Nat := 15

/-- The constant `const uint MAX_TIMINGS = 85;`. -/
def MAX_TIMINGS : Nat := 85

/-- Direction argument of `gpio_set_dir`: output. -/
def GPIO_OUT : Bool := true

/-- Direction argument of `gpio_set_dir`: input. -/
def GPIO_IN : Bool := false

/-! ## Data model -/

/-- The structure `dht_reading` of sensor.h; a `float` field holds the
rational number the stored `float` stands for. -/
structure dht_reading where
  humidity : ℚ
  temp_celsius : ℚ
deriving DecidableEq

/-- Behaviour of the data line during one call: the level returned by the
`n`-th call of `gpio_get(DHT_PIN)`. -/
abbrev Pin := Nat → Bool

/-- Local variables of `read_from_dht` during the sampling loop, followed by
the instrumentation fields. -/
structure LoopState where
  i : Nat
  previous_pin_state : Bool
  data : List Nat
  received_data_bits : Nat
  /-- Instrumentation: number of `gpio_get(DHT_PIN)` calls made so far. -/
  reads : Nat
  /-- Instrumentation: number of `sleep_us(1)` calls made so far. -/
  delays : Nat
  /-- Instrumentation: number of stores to an element of `data` so far. -/
  data_writes : Nat
  /-- Instrumentation: the durations (`count`) of the iterations that did not
  time out, in order. -/
  trace : List Nat
deriving DecidableEq

/-- The variables as initialised at lines 70-72: `data = {0,0,0,0,0}`,
`previous_pin_state = 1`, `received_data_bits = 0`, and `i = 0`. -/
def LoopState.init : LoopState :=
  { i := 0, previous_pin_state := true, data := [0, 0, 0, 0, 0],
    received_data_bits := 0, reads := 0, delays := 0, data_writes := 0, trace := [] }

/-- How the sampling loop ended. `completed`: the loop condition
`i < MAX_TIMINGS` failed. `timed_out`: the `break` of line 97.
`out_of_bounds`: a store to `data[k]` with `k > 4`. `out_of_fuel`: the model
ran out of fuel (shown below never to happen). -/
inductive Exit
  | completed
  | timed_out
  | out_of_bounds
  | out_of_fuel
deriving DecidableEq

/-! ## The sampling loop (lines 86-109) -/

/-- The inner loop of lines 88-93, started with the given `count`:
`while (gpio_get(DHT_PIN) == previous_pin_state) { count++; sleep_us(1);
if (count == 255) break; }`. Returns `count` at exit and the number of
`gpio_get` calls made so far; `none` when the fuel is used up. -/
def pollWhile (pin : Pin) (previous_pin_state : Bool) :
    Nat → Nat → Nat → Option (Nat × Nat)
  | 0, _, _ => none
  | fuel + 1, reads, count =>
    if pin reads == previous_pin_state then
      if count + 1 == 255 then some (count + 1, reads + 1)
      else pollWhile pin previous_pin_state fuel (reads + 1) (count + 1)
    else some (count, reads + 1)

/-- Lines 103-107: `data[received_data_bits / 8] <<= 1;
if (count > 16) data[received_data_bits / 8] |= 1; received_data_bits++;`.
Returns `none` when the index is outside `data`. -/
def appendBit (count : Nat) (s : LoopState) : Option LoopState :=
  let k := s.received_data_bits / 8
  if k < s.data.length then
    let shifted := s.data.set k (s.data.getD k 0 <<< 1)
    if count > 16 then
      some { s with data := shifted.set k (shifted.getD k 0 ||| 1),
                    received_data_bits := s.received_data_bits + 1,
                    data_writes := s.data_writes + 2 }
    else
      some { s with data := shifted,
                    received_data_bits := s.received_data_bits + 1,
                    data_writes := s.data_writes + 1 }
  else none

/-- Result of one pass through the body of the `for` loop. -/
inductive Step
  | next (s : LoopState)
  | stop (e : Exit) (s : LoopState)
deriving DecidableEq

/-- The body of the `for` loop, lines 87-108, for the current value of `i`. -/
def loopBody (pin : Pin) (s : LoopState) : Step :=
  match pollWhile pin s.previous_pin_state 255 s.reads 0 with
  | none => .stop .out_of_fuel s
  | some (count, reads) =>
    -- line 96: `previous_pin_state = gpio_get(DHT_PIN);`
    let s1 := { s with previous_pin_state := pin reads, reads := reads + 1,
                       delays := s.delays + count }
    -- line 97
    if count == 255 then .stop .timed_out s1
    else
      let s2 := { s1 with trace := s1.trace ++ [count] }
      -- line 101
      if s2.i ≥ 4 && s2.i % 2 == 0 then
        match appendBit count s2 with
        | none => .stop .out_of_bounds s2
        | some s3 => .next s3
      else .next s2

/-- The loop `for (uint i = 0; i < MAX_TIMINGS; i++) { ... }` of line 86,
continued from state `s`. -/
def forLoop (pin : Pin) : Nat → LoopState → Exit × LoopState
  | 0, s => (.out_of_fuel, s)
  | fuel + 1, s =>
    if s.i < MAX_TIMINGS then
      match loopBody pin s with
      | .next s1 => forLoop pin fuel { s1 with i := s1.i + 1 }
      | .stop e s1 => (e, s1)
    else (.completed, s)

/-- The whole sampling loop from the initial variables. -/
def sampling (pin : Pin) : Exit × LoopState :=
  forLoop pin (MAX_TIMINGS + 1) LoopState.init

/-! ## Validation and conversion (lines 114-132) -/

/-- Calls the program makes on its environment, other than reading the data
line. `sampling reads delays` stands for the sampling loop, which only calls
`gpio_get(DHT_PIN)` (`reads` times) and `sleep_us(1)` (`delays` times). -/
inductive Effect
  | gpio_set_dir (gpio : Nat) (out : Bool)
  | gpio_put (gpio : Nat) (value : Bool)
  | sleep_ms (ms : Nat)
  | sampling (reads delays : Nat)
  | printf (text : String)
deriving DecidableEq

/-- The test of line 116. -/
def frameValid (data : List Nat) (received_data_bits : Nat) : Bool :=
  received_data_bits ≥ 40 &&
    data.getD 4 0 == ((data.getD 0 0 + data.getD 1 0 + data.getD 2 0 + data.getD 3 0) &&& 0xFF)

/-- Rounding to the nearest integer, a tie going to the even one. -/
def roundHalfEven (y : ℚ) : ℤ :=
  if y - ⌊y⌋ < 1 / 2 then ⌊y⌋
  else if 1 / 2 < y - ⌊y⌋ then ⌊y⌋ + 1
  else if ⌊y⌋ % 2 = 0 then ⌊y⌋ else ⌊y⌋ + 1

/-- The `float` nearest to `x`, the value a `float` operation with exact
result `x` returns: `x` is scaled by a power of two to a significand between
`2 ^ 23` and `2 ^ 24`, which is rounded to the nearest integer, ties to
even. -/
def toFloat32 (x : ℚ) : ℚ :=
  if x = 0 then 0
  else (roundHalfEven (x / 2 ^ (Int.log 2 |x| - 23)) : ℚ) * 2 ^ (Int.log 2 |x| - 23)

/-- Lines 118-121: the value assigned to `result->humidity`. The `int`
`(data[0] << 8) + data[1]` and the `int` `data[0]` are exact as `float`; the
division by 10 rounds. -/
def humidityOf (data : List Nat) : ℚ :=
  let humidity : ℚ := toFloat32 ((((data.getD 0 0 <<< 8) + data.getD 1 0 : Nat) : ℚ) / 10)
  if humidity > 100 then (data.getD 0 0 : ℚ) else humidity

/-- Lines 122-129: the value assigned to `result->temp_celsius`. The `int`
operands are exact as `float`; the division by 10 rounds. -/
def tempOf (data : List Nat) : ℚ :=
  let temp_celsius : ℚ :=
    toFloat32 (((((data.getD 2 0 &&& 0x7F) <<< 8) + data.getD 3 0 : Nat) : ℚ) / 10)
  let temp_celsius := if temp_celsius > 125 then (data.getD 2 0 : ℚ) else temp_celsius
  if data.getD 2 0 &&& 0x80 ≠ 0 then -temp_celsius else temp_celsius

/-- What a call of `read_from_dht` does: it returns, leaving `result` in
`*result` after the listed effects, or it runs into undefined behaviour. -/
inductive Outcome
  | returned (result : dht_reading) (effects : List Effect)
  | undefined (e : Exit)
deriving DecidableEq

/-- Lines 74-83: the start signal on the data pin and the LED switched on. -/
def startEffects (led : Nat) : List Effect :=
  [.gpio_set_dir DHT_PIN GPIO_OUT, .gpio_put DHT_PIN false, .sleep_ms 20,
   .gpio_set_dir DHT_PIN GPIO_IN, .gpio_put led true]

/-- Lines 111-132: what `read_from_dht` does once the sampling loop has ended
with exit `e` in state `s`. -/
def conclude (led : Nat) (result : dht_reading) : Exit × LoopState → Outcome
  | (.out_of_bounds, _) => .undefined .out_of_bounds
  | (.out_of_fuel, _) => .undefined .out_of_fuel
  | (_, s) =>
    let effects := startEffects led ++ [.sampling s.reads s.delays, .gpio_put led false]
    if frameValid s.data s.received_data_bits then
      .returned { humidity := humidityOf s.data, temp_celsius := tempOf s.data } effects
    else
      .returned result (effects ++ [.printf "Bad data\n"])

/-- The function `void read_from_dht(dht_reading *result)`. `led` is the
board's `PICO_DEFAULT_LED_PIN`, `pin` the behaviour of the data line and
`result` the contents of `*result` on entry. -/
def read_from_dht (led : Nat) (pin : Pin) (result : dht_reading) : Outcome :=
  conclude led result (sampling pin)

/-! ## Test signals -/

/-- Levels read by the program when the line produces the given durations,
starting at level `level`: each duration `d` is `d` reads at the current
level followed by two reads at the opposite level (the one that ends the
inner loop and the one of line 96). -/
def wave : Bool → List Nat → List Bool
  | _, [] => []
  | level, d :: ds => List.replicate d level ++ [!level, !level] ++ wave (!level) ds

/-- A list of levels as the bits of a number, first level lowest. -/
def maskOf : List Bool → Nat
  | [] => 0
  | b :: bs => 2 * maskOf bs + b.toNat

/-- A line that produces the given durations and then stays where it is for
256 reads. -/
def pinOfDurations (ds : List Nat) : Pin :=
  fun n => (maskOf (wave true ds ++ List.replicate 256 (ds.length % 2 == 0))).testBit n

/-- The eight bits of a byte, most significant first. -/
def bitsOfByte (b : Nat) : List Bool :=
  [b.testBit 7, b.testBit 6, b.testBit 5, b.testBit 4,
   b.testBit 3, b.testBit 2, b.testBit 1, b.testBit 0]

/-- The bits of a frame in the order the sensor sends them. -/
def frameBits (frame : List Nat) : List Bool :=
  (frame.map bitsOfByte).flatten

/-- Durations of a transmission of the given bits: four preamble transitions
of duration `gap`, then for each bit a pulse of duration `long` or `short`
followed by a gap. -/
def frameDurations (short long gap : Nat) (bits : List Bool) : List Nat :=
  [gap, gap, gap, gap] ++ (bits.map (fun b => [if b then long else short, gap])).flatten

/-- A test line that sends `frame` with data pulses of 16 counts for a 0 and 17
counts for a 1, every other duration being 3 counts, 84 durations in all. -/
def framePin (frame : List Nat) : Pin :=
  pinOfDurations (frameDurations 16 17 3 (frameBits frame))

/-! ## The decoder as a function of the recorded durations -/

/-- The durations recorded at the even loop indices 4, 6, 8, ... -/
def dataPulses (trace : List Nat) : List Nat :=
  (List.range ((trace.length - 3) / 2)).map (fun k => trace.getD (4 + 2 * k) 0)

/-- The bit a data pulse stands for: 1 when it lasted more than 16 counts. -/
def bitOfPulse (d : Nat) : Bool := decide (16 < d)

/-- One bit shifted into the accumulator `(data, received_data_bits)`. -/
def packStep (acc : List Nat × Nat) (bit : Bool) : List Nat × Nat :=
  (acc.1.set (acc.2 / 8) (2 * acc.1.getD (acc.2 / 8) 0 + bit.toNat), acc.2 + 1)

/-- The accumulator after the given bits, starting from five zero bytes. -/
def pack (bits : List Bool) : List Nat × Nat :=
  bits.foldl packStep ([0, 0, 0, 0, 0], 0)

/-- Bit `k` of a frame, counted from the most significant bit of byte 0. -/
def frameBit (frame : List Nat) (k : Nat) : Bool :=
  (frame.getD (k / 8) 0).testBit (7 - k % 8)

/-- The line delivers `frame`: 83 or 84 durations are recorded before the
timeout and the data pulse of bit `k`, at loop index `4 + 2 * k`, lasts more
than 16 counts exactly when the bit is 1. -/
def Delivers (pin : Pin) (frame : List Nat) : Prop :=
  ((sampling pin).2.trace.length = 83 ∨ (sampling pin).2.trace.length = 84) ∧
  ∀ k, k < 40 → (16 < (sampling pin).2.trace.getD (4 + 2 * k) 0 ↔ frameBit frame k = true)

instance (pin : Pin) (frame : List Nat) : Decidable (Delivers pin frame) := by
  unfold Delivers; infer_instance

/-- The durations decoded into the accumulator: only the first 40 data pulses
fit into `data`. -/
def decoded (trace : List Nat) : List Nat × Nat :=
  pack (((dataPulses trace).take 40).map bitOfPulse)

/-! ## Quantities the properties are stated with -/

/-- Byte `j` of the frame held in `data` when the sampling loop has ended. -/
def frameByte (pin : Pin) (j : Nat) : Nat := (sampling pin).2.data.getD j 0

/-- The humidity as the specification writes it: `((byte0 << 8) | byte1) / 10`. -/
def specHumidity (byte0 byte1 : Nat) : ℚ := (((byte0 <<< 8) ||| byte1 : Nat) : ℚ) / 10

/-- The temperature magnitude as the specification writes it:
`(((byte2 & 0x7F) << 8) | byte3) / 10`. -/
def specMagnitude (byte2 byte3 : Nat) : ℚ :=
  ((((byte2 &&& 0x7F) <<< 8) ||| byte3 : Nat) : ℚ) / 10

/-! ## Invariants of the sampling loop -/

/-- Loop invariant of the `for` loop, at the loop test. -/
structure Inv (s : LoopState) : Prop where
  len : s.trace.length = s.i
  lt : s.i < MAX_TIMINGS
  dec : (s.data, s.received_data_bits) = pack ((dataPulses s.trace).map bitOfPulse)
  wr : s.data_writes ≤ 2 * s.received_data_bits
  rd : s.reads ≤ 256 * s.i
  dl : s.delays ≤ 254 * s.i
  tr : ∀ d, d ∈ s.trace → d < 255

/-- What holds of the exit and the state when the `for` loop has ended. -/
structure Final (e : Exit) (s : LoopState) : Prop where
  exit : (e = .timed_out ∧ s.trace.length = s.i) ∨
         (e = .out_of_bounds ∧ s.i = 84 ∧ s.trace.length = 85)
  lt : s.i < MAX_TIMINGS
  dec : (s.data, s.received_data_bits) = decoded s.trace
  wr : s.data_writes ≤ 2 * s.received_data_bits
  rd : s.reads ≤ 256 * (s.i + 1)
  dl : s.delays ≤ 254 * s.i + 255
  tr : ∀ d, d ∈ s.trace → d < 255

/-! ## The calls made on the environment -/

/-- The calls made by a call of `read_from_dht`, in order: all of them when
the call returns, and those of lines 74-109 when the sampling loop ends at a
store outside `data`. -/
def callsMade (led : Nat) (pin : Pin) (result : dht_reading) : List Effect :=
  match read_from_dht led pin result with
  | .returned _ effects => effects
  | .undefined _ =>
    startEffects led ++ [.sampling (sampling pin).2.reads (sampling pin).2.delays]

/-- Whether a call sets the direction of the data pin or writes a level to
it. -/
def drivesDataPin : Effect → Bool
  | .gpio_set_dir gpio _ => gpio == DHT_PIN
  | .gpio_put gpio _ => gpio == DHT_PIN
  | _ => false

/-- A test line that sends a frame and makes one more transition, 3 counts
after the gap that follows the last bit: 85 durations in all. -/
def framePinExtra (frame : List Nat) : Pin :=
  pinOfDurations (frameDurations 16 17 3 (frameBits frame) ++ [3])

/-! ## The inner polling loop -/

theorem shiftLeft_one_or_one (x : Nat) : (x <<< 1) ||| 1 = 2 * x + 1 := by
  have h := Nat.mul_add_lt_is_or (i := 1) (b := 1) (by decide) x
  rw [Nat.shiftLeft_eq, Nat.mul_comm]
  simpa using h.symm

/-- The inner loop always ends within 255 polls, and its result is determined
by the first level that differs from the tracked one. -/
theorem pollWhile_spec (pin : Pin) (prev : Bool) :
    ∀ fuel reads count, count < 255 → 255 - count ≤ fuel →
      ∃ c, count ≤ c ∧ c ≤ 255 ∧
        (∀ k, k < c - count → pin (reads + k) = prev) ∧
        ((c = 255 ∧ pollWhile pin prev fuel reads count = some (c, reads + (c - count))) ∨
         (c < 255 ∧ pin (reads + (c - count)) ≠ prev ∧
          pollWhile pin prev fuel reads count = some (c, reads + (c - count) + 1))) := by
  intro fuel
  induction fuel with
  | zero => intro reads count h1 h2; omega
  | succ fuel ih =>
    intro reads count h1 h2
    unfold pollWhile
    by_cases hp : pin reads = prev
    · by_cases hc : count + 1 = 255
      · refine ⟨255, by omega, le_refl _, ?_, Or.inl ⟨rfl, ?_⟩⟩
        · intro k hk
          have : k = 0 := by omega
          subst this; simpa using hp
        · simp [hp, hc]
          omega
      · obtain ⟨c, hc1, hc2, hc3, hc4⟩ := ih (reads + 1) (count + 1) (by omega) (by omega)
        refine ⟨c, by omega, hc2, ?_, ?_⟩
        · intro k hk
          cases k with
          | zero => simpa using hp
          | succ k =>
            have := hc3 k (by omega)
            rw [← this]; congr 1; omega
        · have e1 : reads + 1 + (c - (count + 1)) = reads + (c - count) := by omega
          rw [e1] at hc4
          simp only [hp, beq_self_eq_true, if_true, hc, beq_iff_eq, if_false]
          exact hc4
    · refine ⟨count, le_refl _, by omega, ?_, Or.inr ⟨h1, ?_, ?_⟩⟩
      · intro k hk; omega
      · simpa using hp
      · simp [hp]

theorem appendBit_eq (count : Nat) (s : LoopState)
    (h : s.received_data_bits / 8 < s.data.length) :
    appendBit count s = some { s with
      data := (packStep (s.data, s.received_data_bits) (bitOfPulse count)).1,
      received_data_bits := s.received_data_bits + 1,
      data_writes := s.data_writes + (if 16 < count then 2 else 1) } := by
  unfold appendBit packStep bitOfPulse
  by_cases hc : 16 < count
  · simp [h, hc, List.getD_eq_getElem, shiftLeft_one_or_one]
  · simp [h, hc, List.getD_eq_getElem, Nat.shiftLeft_eq, Nat.mul_comm]

theorem appendBit_none (count : Nat) (s : LoopState)
    (h : ¬ s.received_data_bits / 8 < s.data.length) : appendBit count s = none := by
  unfold appendBit
  simp [h]


/-! ## The pure decoder -/

theorem dataPulses_length (trace : List Nat) :
    (dataPulses trace).length = (trace.length - 3) / 2 := by
  simp [dataPulses]

theorem dataPulses_getD (trace : List Nat) (k : Nat) (h : k < (trace.length - 3) / 2) :
    (dataPulses trace).getD k 0 = trace.getD (4 + 2 * k) 0 := by
  unfold dataPulses
  rw [List.getD_eq_getElem _ _ (by simpa using h)]
  simp

theorem dataPulses_snoc (trace : List Nat) (c : Nat) :
    dataPulses (trace ++ [c]) =
      if 4 ≤ trace.length ∧ trace.length % 2 = 0 then dataPulses trace ++ [c]
      else dataPulses trace := by
  have hcongr : ∀ m, m ≤ (trace.length - 3) / 2 →
      (List.range m).map (fun k => (trace ++ [c]).getD (4 + 2 * k) 0) =
      (List.range m).map (fun k => trace.getD (4 + 2 * k) 0) := by
    intro m hm
    apply List.map_congr_left
    intro k hk
    rw [List.mem_range] at hk
    exact List.getD_append _ _ _ _ (by omega)
  split
  · rename_i h
    have e : (trace.length + 1 - 3) / 2 = (trace.length - 3) / 2 + 1 := by omega
    unfold dataPulses
    rw [List.length_append, List.length_singleton, e, List.range_succ, List.map_append,
      hcongr _ (le_refl _)]
    congr 1
    have e2 : 4 + 2 * ((trace.length - 3) / 2) = trace.length := by omega
    simp [e2, List.getD_append_right]
  · rename_i h
    have e : (trace.length + 1 - 3) / 2 = (trace.length - 3) / 2 := by omega
    unfold dataPulses
    rw [List.length_append, List.length_singleton, e, hcongr _ (le_refl _)]

theorem pack_snoc (bits : List Bool) (b : Bool) :
    pack (bits ++ [b]) = packStep (pack bits) b := by
  simp [pack, List.foldl_append]

theorem pack_snd (bits : List Bool) : (pack bits).2 = bits.length := by
  induction bits using List.reverseRecOn with
  | nil => rfl
  | append_singleton bs b ih => rw [pack_snoc]; simp [packStep, ih]

theorem pack_fst_length (bits : List Bool) : (pack bits).1.length = 5 := by
  induction bits using List.reverseRecOn with
  | nil => rfl
  | append_singleton bs b ih => rw [pack_snoc]; simp [packStep, ih]


/-! ## The `for` loop -/

theorem Inv.bits_of_index {s : LoopState} (h : Inv s) : s.received_data_bits = (s.i - 3) / 2 := by
  have := congrArg Prod.snd h.dec
  simp only [pack_snd, List.length_map, dataPulses_length, h.len] at this
  exact this

theorem Inv.data_has_five {s : LoopState} (h : Inv s) : s.data.length = 5 := by
  have := congrArg Prod.fst h.dec
  simp only at this
  rw [this, pack_fst_length]

/-- One pass through the loop body from a state satisfying the invariant. -/
theorem loopBody_spec (pin : Pin) (s : LoopState) (h : Inv s) :
    (∃ c s1, c < 255 ∧ loopBody pin s = .next s1 ∧ Inv { s1 with i := s1.i + 1 } ∧
        s1.trace = s.trace ++ [c] ∧ s1.i = s.i) ∨
    (∃ level, (∀ k, k < 255 → pin (s.reads + k) = s.previous_pin_state) ∧
        loopBody pin s = .stop .timed_out { s with
          previous_pin_state := level, reads := s.reads + 256, delays := s.delays + 255 }) ∨
    (∃ s1, loopBody pin s = .stop .out_of_bounds s1 ∧ Final .out_of_bounds s1) := by
  obtain ⟨c, -, hc2, hc3, hc4⟩ := pollWhile_spec pin s.previous_pin_state 255 s.reads 0
    (by decide) (by decide)
  have hbits := h.bits_of_index
  have hlen := h.data_has_five
  have hdec := h.dec
  have hi := h.lt
  have hl := h.len
  unfold MAX_TIMINGS at hi
  simp only [Nat.sub_zero] at hc3 hc4
  rcases hc4 with ⟨rfl, hp⟩ | ⟨hlt, -, hp⟩
  · -- timeout
    right; left
    refine ⟨pin (s.reads + 255), hc3, ?_⟩
    unfold loopBody
    rw [hp]
    simp
  · have hne : (c == 255) = false := by simp; omega
    have htr : ∀ d, d ∈ s.trace ++ [c] → d < 255 := by
      intro d hd
      rcases List.mem_append.1 hd with hd | hd
      · exact h.tr d hd
      · simp at hd; omega
    by_cases hdata : 4 ≤ s.i ∧ s.i % 2 = 0
    · have hcond : (decide (s.i ≥ 4) && s.i % 2 == 0) = true := by simp [hdata]
      by_cases hk : s.received_data_bits / 8 < s.data.length
      · -- a bit is appended
        left
        have hb : loopBody pin s = .next { s with
            previous_pin_state := pin (s.reads + c + 1), reads := s.reads + c + 1 + 1,
            delays := s.delays + c, trace := s.trace ++ [c],
            data := (packStep (s.data, s.received_data_bits) (bitOfPulse c)).1,
            received_data_bits := s.received_data_bits + 1,
            data_writes := s.data_writes + (if 16 < c then 2 else 1) } := by
          unfold loopBody
          rw [hp]
          simp only [hne, hcond, Bool.false_eq_true, if_false, if_true]
          rw [appendBit_eq _ _ (by exact hk)]
        refine ⟨c, _, hlt, hb, ?_, rfl, rfl⟩
        constructor
        · simp [hl]
        · simp only [MAX_TIMINGS]; omega
        · simp only [dataPulses_snoc, hl, hdata, and_self, if_true, List.map_append,
            List.map_cons, List.map_nil, pack_snoc, ← hdec]
          rfl
        · have := h.wr
          simp only
          split <;> omega
        · have := h.rd; simp only; omega
        · have := h.dl; simp only; omega
        · exact htr
      · -- the store is outside `data`
        right; right
        have hb : loopBody pin s = .stop .out_of_bounds { s with
            previous_pin_state := pin (s.reads + c + 1), reads := s.reads + c + 1 + 1,
            delays := s.delays + c, trace := s.trace ++ [c] } := by
          unfold loopBody
          rw [hp]
          simp only [hne, hcond, Bool.false_eq_true, if_false, if_true]
          rw [appendBit_none _ _ (by exact hk)]
        refine ⟨_, hb, ?_⟩
        have hi84 : s.i = 84 := by omega
        constructor
        · right; simp [hl, hi84]
        · simp only [MAX_TIMINGS]; omega
        · simp only [decoded, dataPulses_snoc, hl, hdata, and_self, if_true]
          rw [List.take_append_of_le_length (by rw [dataPulses_length, hl, hi84]),
            List.take_of_length_le (by rw [dataPulses_length, hl, hi84]), ← hdec]
        · exact h.wr
        · have := h.rd; simp only; omega
        · have := h.dl; simp only; omega
        · exact htr
    · have hcond : (decide (s.i ≥ 4) && s.i % 2 == 0) = false := by
        rw [Bool.and_eq_false_iff]
        by_cases h4 : 4 ≤ s.i
        · right; simp; omega
        · left; simp; omega
      left
      have hb : loopBody pin s = .next { s with
          previous_pin_state := pin (s.reads + c + 1), reads := s.reads + c + 1 + 1,
          delays := s.delays + c, trace := s.trace ++ [c] } := by
        unfold loopBody
        rw [hp]
        simp only [hne, hcond, Bool.false_eq_true, if_false]
      refine ⟨c, _, hlt, hb, ?_, rfl, rfl⟩
      have hi2 : s.i + 1 < 85 := by
        by_contra hcon
        have : s.i = 84 := by omega
        omega
      constructor
      · simp [hl]
      · simp only [MAX_TIMINGS]; exact hi2
      · simp only [dataPulses_snoc, hl, hdata, if_false, ← hdec]
      · exact h.wr
      · have := h.rd; simp only; omega
      · have := h.dl; simp only; omega
      · exact htr

theorem decoded_eq_of_le (trace : List Nat) (h : trace.length ≤ 84) :
    decoded trace = pack ((dataPulses trace).map bitOfPulse) := by
  unfold decoded
  rw [List.take_of_length_le (by rw [dataPulses_length]; omega)]

theorem Inv.init : Inv LoopState.init := by
  constructor <;> simp [LoopState.init, MAX_TIMINGS, dataPulses, pack]

/-- Whatever the line does, the `for` loop ends, by a timeout or at the store
outside `data`, in a state described by `Final`. -/
theorem forLoop_final (pin : Pin) :
    ∀ fuel s, Inv s → MAX_TIMINGS - s.i < fuel →
      Final (forLoop pin fuel s).1 (forLoop pin fuel s).2 := by
  intro fuel
  induction fuel with
  | zero => intro s _ h; omega
  | succ fuel ih =>
    intro s hinv hfuel
    have hlt := hinv.lt
    unfold forLoop
    rw [if_pos hlt]
    rcases loopBody_spec pin s hinv with ⟨c, s1, -, hb, hinv1, -, hi1⟩ | ⟨level, -, hb⟩ |
      ⟨s1, hb, hfin⟩
    · rw [hb]
      apply ih _ hinv1
      simp only [hi1]
      omega
    · rw [hb]
      constructor
      · left; exact ⟨rfl, hinv.len⟩
      · exact hlt
      · simp only
        rw [decoded_eq_of_le _ (by have := hinv.len; unfold MAX_TIMINGS at hlt; omega)]
        exact hinv.dec
      · exact hinv.wr
      · have := hinv.rd; simp only; omega
      · have := hinv.dl; simp only; omega
      · exact hinv.tr
    · rw [hb]
      exact hfin

/-- More fuel does not change the result of a loop that ended. -/
theorem forLoop_fuel_mono (pin : Pin) :
    ∀ fuel1 fuel2 s, (forLoop pin fuel1 s).1 ≠ .out_of_fuel → fuel1 ≤ fuel2 →
      forLoop pin fuel2 s = forLoop pin fuel1 s := by
  intro fuel1
  induction fuel1 with
  | zero => intro fuel2 s h _; exact absurd rfl h
  | succ fuel1 ih =>
    intro fuel2 s h hle
    obtain ⟨fuel2, rfl⟩ : ∃ k, fuel2 = k + 1 := ⟨fuel2 - 1, by omega⟩
    rw [forLoop] at h
    rw [forLoop, forLoop]
    by_cases hi : s.i < MAX_TIMINGS
    · rw [if_pos hi] at h
      rw [if_pos hi, if_pos hi]
      cases hb : loopBody pin s with
      | next s1 =>
        rw [hb] at h
        exact ih fuel2 _ h (by omega)
      | stop e s1 => rfl
    · rw [if_neg hi, if_neg hi]

theorem sampling_final (pin : Pin) : Final (sampling pin).1 (sampling pin).2 :=
  forLoop_final pin _ _ Inv.init (by simp [LoopState.init, MAX_TIMINGS])

theorem Final.ne_out_of_fuel {e : Exit} {s : LoopState} (h : Final e s) : e ≠ .out_of_fuel := by
  rcases h.exit with ⟨rfl, -⟩ | ⟨rfl, -⟩ <;> simp

theorem Final.ne_completed {e : Exit} {s : LoopState} (h : Final e s) : e ≠ .completed := by
  rcases h.exit with ⟨rfl, -⟩ | ⟨rfl, -⟩ <;> simp

theorem Final.trace_length_le {e : Exit} {s : LoopState} (h : Final e s) :
    s.trace.length ≤ 85 := by
  have := h.lt
  unfold MAX_TIMINGS at this
  rcases h.exit with ⟨-, h1⟩ | ⟨-, -, h1⟩ <;> omega

theorem Final.timed_out_iff {e : Exit} {s : LoopState} (h : Final e s) :
    e = .timed_out ↔ s.trace.length ≤ 84 := by
  have := h.lt
  unfold MAX_TIMINGS at this
  rcases h.exit with ⟨rfl, h1⟩ | ⟨rfl, -, h1⟩
  · simp; omega
  · simp; omega

theorem decoded_snd (trace : List Nat) :
    (decoded trace).2 = min 40 ((trace.length - 3) / 2) := by
  simp [decoded, pack_snd, dataPulses_length]

theorem Final.bits {e : Exit} {s : LoopState} (h : Final e s) :
    s.received_data_bits = min 40 ((s.trace.length - 3) / 2) := by
  have := congrArg Prod.snd h.dec
  simpa [decoded_snd] using this

theorem Final.data_length {e : Exit} {s : LoopState} (h : Final e s) : s.data.length = 5 := by
  have := congrArg Prod.fst h.dec
  simp only at this
  rw [this, decoded, pack_fst_length]

/-! ## Packing the bits of a frame -/

theorem byte_of_bits (b : Nat) (h : b < 256) :
    2 * (2 * (2 * (2 * (2 * (2 * (2 * (2 * 0 + (b.testBit 7).toNat) + (b.testBit 6).toNat) +
      (b.testBit 5).toNat) + (b.testBit 4).toNat) + (b.testBit 3).toNat) +
      (b.testBit 2).toNat) + (b.testBit 1).toNat) + (b.testBit 0).toNat = b := by
  simp only [Nat.toNat_testBit]
  norm_num
  omega

theorem pack_frameBits (b0 b1 b2 b3 b4 : Nat) (h0 : b0 < 256) (h1 : b1 < 256)
    (h2 : b2 < 256) (h3 : b3 < 256) (h4 : b4 < 256) :
    pack (frameBits [b0, b1, b2, b3, b4]) = ([b0, b1, b2, b3, b4], 40) := by
  simp only [pack, frameBits, bitsOfByte, List.map_cons, List.map_nil, List.flatten_cons,
    List.flatten_nil, List.cons_append, List.nil_append, List.append_nil, List.foldl_cons,
    List.foldl_nil, packStep]
  norm_num
  refine ⟨?_, ?_, ?_, ?_, ?_⟩
  · simpa using byte_of_bits b0 h0
  · simpa using byte_of_bits b1 h1
  · simpa using byte_of_bits b2 h2
  · simpa using byte_of_bits b3 h3
  · simpa using byte_of_bits b4 h4


theorem frameBits_length (b0 b1 b2 b3 b4 : Nat) :
    (frameBits [b0, b1, b2, b3, b4]).length = 40 := rfl

theorem frameBits_getD (b0 b1 b2 b3 b4 k : Nat) (hk : k < 40) :
    (frameBits [b0, b1, b2, b3, b4]).getD k false = frameBit [b0, b1, b2, b3, b4] k := by
  interval_cases k <;> rfl

/-- A trace whose data pulses spell the bits of a frame decodes to that
frame. -/
theorem decoded_of_frame (trace : List Nat) (b0 b1 b2 b3 b4 : Nat)
    (h0 : b0 < 256) (h1 : b1 < 256) (h2 : b2 < 256) (h3 : b3 < 256) (h4 : b4 < 256)
    (hlen : 83 ≤ trace.length)
    (hbits : ∀ k, k < 40 →
      (16 < trace.getD (4 + 2 * k) 0 ↔ frameBit [b0, b1, b2, b3, b4] k = true)) :
    decoded trace = ([b0, b1, b2, b3, b4], 40) := by
  have hl : (((dataPulses trace).take 40).map bitOfPulse).length = 40 := by
    simp [dataPulses_length]; omega
  have e : ((dataPulses trace).take 40).map bitOfPulse = frameBits [b0, b1, b2, b3, b4] := by
    apply List.ext_getElem
    · rw [hl, frameBits_length]
    · intro k hk1 hk2
      rw [hl] at hk1
      have e2 := frameBits_getD b0 b1 b2 b3 b4 k hk1
      rw [List.getD_eq_getElem _ _ hk2] at e2
      rw [e2]
      have hk3 : k < (trace.length - 3) / 2 := by omega
      have e1 := dataPulses_getD trace k hk3
      rw [List.getD_eq_getElem _ _ (by rw [dataPulses_length]; exact hk3)] at e1
      simp only [List.getElem_map, List.getElem_take, e1, bitOfPulse]
      have := hbits k hk1
      by_cases hf : frameBit [b0, b1, b2, b3, b4] k = true
      · rw [hf]; simpa using this.2 hf
      · have hn : ¬ 16 < trace.getD (4 + 2 * k) 0 := fun hc => hf (this.1 hc)
        simp only [Bool.not_eq_true] at hf
        rw [hf]; simpa using hn
  rw [decoded, e, pack_frameBits _ _ _ _ _ h0 h1 h2 h3 h4]

/-- Each element of the accumulator holds as many bits as were shifted into
it, at most eight. -/
theorem pack_getD_lt (bits : List Bool) (hlen : bits.length ≤ 40) (j : Nat) :
    (pack bits).1.getD j 0 < 2 ^ (min 8 (bits.length - 8 * j)) := by
  induction bits using List.reverseRecOn with
  | nil => simp [pack]; rcases j with _ | _ | _ | _ | _ | _ | j <;> simp
  | append_singleton bs b ih =>
    rw [List.length_append, List.length_singleton] at hlen ⊢
    have ih := ih (by omega)
    have hn := pack_snd bs
    have hl := pack_fst_length bs
    rw [pack_snoc]
    unfold packStep
    simp only [hn]
    by_cases hj : j = bs.length / 8
    · subst hj
      rw [List.getD_eq_getElem _ _ (by rw [List.length_set, hl]; omega)]
      rw [List.getElem_set_self]
      have e1 : min 8 (bs.length + 1 - 8 * (bs.length / 8)) =
          min 8 (bs.length - 8 * (bs.length / 8)) + 1 := by omega
      rw [e1, pow_succ]
      have : b.toNat ≤ 1 := Bool.toNat_le b
      omega
    · have e1 : ((pack bs).1.set (bs.length / 8) (2 * (pack bs).1.getD (bs.length / 8) 0 +
          b.toNat)).getD j 0 = (pack bs).1.getD j 0 := by
        simp only [List.getD_eq_getElem?_getD]
        rw [List.getElem?_set_ne (Ne.symm hj)]
      rw [e1]
      refine lt_of_lt_of_le ih (Nat.pow_le_pow_right (by decide) ?_)
      omega

theorem decoded_getD_lt (trace : List Nat) (j : Nat) : (decoded trace).1.getD j 0 < 256 := by
  have h := pack_getD_lt (((dataPulses trace).take 40).map bitOfPulse) (by simp) j
  refine lt_of_lt_of_le h ?_
  calc 2 ^ (min 8 _) ≤ 2 ^ 8 := Nat.pow_le_pow_right (by decide) (Nat.min_le_left _ _)
    _ = 256 := by norm_num

/-! ## The end of the call -/

/-- A loop that ended by the timeout with fewer than 40 bits, or with a frame
that fails the test of line 116, leaves `*result` alone and prints. -/
theorem conclude_rejected (led : Nat) (result : dht_reading) (s : LoopState)
    (h : frameValid s.data s.received_data_bits = false) :
    conclude led result (.timed_out, s) =
      .returned result (startEffects led ++
        [.sampling s.reads s.delays, .gpio_put led false, .printf "Bad data\n"]) := by
  simp [conclude, h]

theorem conclude_accepted (led : Nat) (result : dht_reading) (s : LoopState)
    (h : frameValid s.data s.received_data_bits = true) :
    conclude led result (.timed_out, s) =
      .returned { humidity := humidityOf s.data, temp_celsius := tempOf s.data }
        (startEffects led ++ [.sampling s.reads s.delays, .gpio_put led false]) := by
  simp [conclude, h]

theorem decoded_short (trace : List Nat) (h : trace.length < 5) :
    decoded trace = ([0, 0, 0, 0, 0], 0) := by
  have : (trace.length - 3) / 2 = 0 := by omega
  simp [decoded, dataPulses, this, pack]

theorem and_255 (x : Nat) : x &&& 0xFF = x % 256 :=
  Nat.and_pow_two_sub_one_eq_mod x 8

theorem frameValid_iff (data : List Nat) (n : Nat) :
    frameValid data n = true ↔
      40 ≤ n ∧ data.getD 4 0 =
        (data.getD 0 0 + data.getD 1 0 + data.getD 2 0 + data.getD 3 0) % 256 := by
  simp [frameValid, and_255]

/-- The state at the end of a run with exactly 40 recorded data pulses. -/
theorem forty_pulses (pin : Pin) (h : (dataPulses (sampling pin).2.trace).length = 40) :
    sampling pin = (.timed_out, (sampling pin).2) ∧
    (sampling pin).2.received_data_bits = 40 ∧
    ∀ j, (sampling pin).2.data.getD j 0 < 256 := by
  have hf := sampling_final pin
  have hb := hf.bits
  rw [dataPulses_length] at h
  refine ⟨Prod.ext (hf.timed_out_iff.2 (by omega)) rfl, by omega, ?_⟩
  intro j
  have := congrArg Prod.fst hf.dec
  simp only at this
  rw [this]
  exact decoded_getD_lt _ j

/-- The state at the end of a run in which the line delivers a frame. -/
theorem delivers_state (pin : Pin) (b0 b1 b2 b3 b4 : Nat)
    (h0 : b0 < 256) (h1 : b1 < 256) (h2 : b2 < 256) (h3 : b3 < 256) (h4 : b4 < 256)
    (h : Delivers pin [b0, b1, b2, b3, b4]) :
    sampling pin = (.timed_out, (sampling pin).2) ∧
    (sampling pin).2.data = [b0, b1, b2, b3, b4] ∧
    (sampling pin).2.received_data_bits = 40 := by
  have hf := sampling_final pin
  obtain ⟨hlen, hbits⟩ := h
  have hd := decoded_of_frame _ b0 b1 b2 b3 b4 h0 h1 h2 h3 h4 (by omega) hbits
  have hdec := hf.dec
  rw [hd] at hdec
  refine ⟨Prod.ext (hf.timed_out_iff.2 (by omega)) rfl, ?_, ?_⟩
  · exact congrArg Prod.fst hdec
  · exact congrArg Prod.snd hdec

theorem list_of_length_five (frame : List Nat) (h : frame.length = 5) :
    ∃ b0 b1 b2 b3 b4, frame = [b0, b1, b2, b3, b4] := by
  match frame, h with
  | [b0, b1, b2, b3, b4], _ => exact ⟨b0, b1, b2, b3, b4, rfl⟩

/-- The outcome of a call on a line that delivers a frame passing the test of
line 116. -/
theorem delivers_accepted (led : Nat) (pin : Pin) (result : dht_reading)
    (b0 b1 b2 b3 b4 : Nat)
    (h0 : b0 < 256) (h1 : b1 < 256) (h2 : b2 < 256) (h3 : b3 < 256) (h4 : b4 < 256)
    (h : Delivers pin [b0, b1, b2, b3, b4])
    (hsum : b4 = (b0 + b1 + b2 + b3) % 256) :
    read_from_dht led pin result =
      .returned { humidity := humidityOf [b0, b1, b2, b3, b4],
                  temp_celsius := tempOf [b0, b1, b2, b3, b4] }
        (startEffects led ++
          [.sampling (sampling pin).2.reads (sampling pin).2.delays, .gpio_put led false]) := by
  obtain ⟨hs, hd, hb⟩ := delivers_state pin b0 b1 b2 b3 b4 h0 h1 h2 h3 h4 h
  unfold read_from_dht
  rw [hs, conclude_accepted, hd]
  rw [frameValid_iff, hd, hb]
  exact ⟨le_refl _, hsum⟩

/-- The outcome of a call on a line that delivers a frame failing the test of
line 116. -/
theorem delivers_rejected (led : Nat) (pin : Pin) (result : dht_reading)
    (b0 b1 b2 b3 b4 : Nat)
    (h0 : b0 < 256) (h1 : b1 < 256) (h2 : b2 < 256) (h3 : b3 < 256) (h4 : b4 < 256)
    (h : Delivers pin [b0, b1, b2, b3, b4])
    (hsum : b4 ≠ (b0 + b1 + b2 + b3) % 256) :
    read_from_dht led pin result =
      .returned result (startEffects led ++
        [.sampling (sampling pin).2.reads (sampling pin).2.delays, .gpio_put led false,
         .printf "Bad data\n"]) := by
  obtain ⟨hs, hd, hb⟩ := delivers_state pin b0 b1 b2 b3 b4 h0 h1 h2 h3 h4 h
  unfold read_from_dht
  rw [hs]
  apply conclude_rejected
  rw [Bool.eq_false_iff]
  intro hv
  have := ((frameValid_iff _ _).1 hv).2
  rw [hd] at this
  exact hsum this

/-! ## Rounding to `float` -/

theorem roundHalfEven_eq_of (y : ℚ) (m : ℤ) (h : |y - m| < 1 / 2) : roundHalfEven y = m := by
  rw [abs_lt] at h
  obtain ⟨h1, h2⟩ := h
  unfold roundHalfEven
  by_cases hm : (m : ℚ) ≤ y
  · have hf : ⌊y⌋ = m := by
      rw [Int.floor_eq_iff]
      constructor
      · exact hm
      · linarith
    rw [hf, if_pos (by linarith)]
  · have hf : ⌊y⌋ = m - 1 := by
      rw [Int.floor_eq_iff]
      push_cast
      constructor
      · linarith
      · push_neg at hm; linarith
    rw [hf]
    push_cast
    rw [if_neg (by linarith), if_pos (by linarith)]
    ring

theorem roundHalfEven_near (y : ℚ) : |(roundHalfEven y : ℚ) - y| ≤ 1 / 2 := by
  have h1 := Int.floor_le y
  have h2 := Int.lt_floor_add_one y
  unfold roundHalfEven
  rw [abs_le]
  split_ifs with a b c
  · constructor <;> linarith
  · push_cast; constructor <;> linarith
  · constructor <;> linarith
  · push_cast; constructor <;> linarith

theorem log2_eq_of (x : ℚ) (k : ℤ) (h1 : (2 : ℚ) ^ k ≤ x) (h2 : x < (2 : ℚ) ^ (k + 1)) :
    Int.log 2 x = k := by
  have hx : 0 < x := lt_of_lt_of_le (by positivity) h1
  apply le_antisymm
  · have := (Int.lt_zpow_iff_log_lt (b := 2) (by decide) hx).1 (by exact_mod_cast h2)
    omega
  · exact (Int.zpow_le_iff_le_log (b := 2) (by decide) hx).1 (by exact_mod_cast h1)


/-- A certificate for the nearest `float`: `x` lies in the binade of exponent
`e + 23` and `m` is the integer nearest to `x / 2 ^ e`. -/
theorem toFloat32_eq_of (x : ℚ) (e m : ℤ) (h1 : (2 : ℚ) ^ (e + 23) ≤ x)
    (h2 : x < (2 : ℚ) ^ (e + 23 + 1)) (h3 : |x / 2 ^ e - m| < 1 / 2) :
    toFloat32 x = m * 2 ^ e := by
  have hx : 0 < x := lt_of_lt_of_le (by positivity) h1
  have hl : Int.log 2 |x| = e + 23 := by
    rw [abs_of_pos hx]
    exact log2_eq_of x _ h1 h2
  unfold toFloat32
  rw [if_neg hx.ne', hl, show e + 23 - 23 = e by ring, roundHalfEven_eq_of _ m h3]

/-- The nearest `float` of a positive number is within one part in `2 ^ 24`
of it. -/
theorem toFloat32_near (x : ℚ) (hx : 0 < x) : |toFloat32 x - x| ≤ x / 2 ^ 24 := by
  have hlog := Int.zpow_log_le_self (b := 2) (r := x) (by decide) hx
  unfold toFloat32
  rw [if_neg hx.ne', abs_of_pos hx]
  set e : ℤ := Int.log 2 x - 23 with he
  have hpos : (0 : ℚ) < 2 ^ e := by positivity
  have hr := roundHalfEven_near (x / 2 ^ e)
  have e1 : (roundHalfEven (x / 2 ^ e) : ℚ) * 2 ^ e - x =
      ((roundHalfEven (x / 2 ^ e) : ℚ) - x / 2 ^ e) * 2 ^ e := by
    field_simp
  rw [e1, abs_mul, abs_of_pos hpos]
  have e2 : (2 : ℚ) ^ Int.log 2 x = 2 ^ e * 2 ^ (23 : ℤ) := by
    rw [← zpow_add₀ (by norm_num : (2 : ℚ) ≠ 0), he]
    congr 1
    ring
  have h4 : (2 : ℚ) ^ e * 2 ^ (23 : ℤ) ≤ x := by
    rw [← e2]
    exact_mod_cast hlog
  have h5 : (2 : ℚ) ^ e * 1 / 2 ≤ x / 2 ^ 24 := by
    rw [le_div_iff₀ (by positivity)]
    norm_num at h4 ⊢
    linarith
  calc |(roundHalfEven (x / 2 ^ e) : ℚ) - x / 2 ^ e| * 2 ^ e ≤ 1 / 2 * 2 ^ e :=
        mul_le_mul_of_nonneg_right hr hpos.le
    _ ≤ x / 2 ^ 24 := by linarith

theorem toFloat32_zero : toFloat32 0 = 0 := by
  simp [toFloat32]

theorem toFloat32_nonneg (x : ℚ) (hx : 0 ≤ x) : 0 ≤ toFloat32 x := by
  rcases hx.eq_or_lt with rfl | hpos
  · rw [toFloat32_zero]
  · have h := toFloat32_near x hpos
    rw [abs_le] at h
    have : x / 2 ^ 24 ≤ x := div_le_self hpos.le (by norm_num)
    linarith

theorem toFloat32_100 : toFloat32 100 = 100 := by
  rw [toFloat32_eq_of 100 (-17) 13107200 (by norm_num) (by norm_num) (by norm_num)]
  norm_num

theorem toFloat32_125 : toFloat32 125 = 125 := by
  rw [toFloat32_eq_of 125 (-17) 16384000 (by norm_num) (by norm_num) (by norm_num)]
  norm_num

/-- The comparison of the rounded quotient with a threshold that is itself a
`float` comes out as on the exact quotient. -/
theorem toFloat32_threshold (t n : Nat) (ht : t ≤ 1000) (hfix : toFloat32 (t : ℚ) = (t : ℚ)) :
    (t : ℚ) < toFloat32 ((n : ℚ) / 10) ↔ (t : ℚ) < (n : ℚ) / 10 := by
  have ht' : (t : ℚ) ≤ 1000 := by exact_mod_cast ht
  have ht0 : (0 : ℚ) ≤ (t : ℚ) := by positivity
  constructor
  · intro h
    by_contra hle
    rw [not_lt] at hle
    have hn : n ≤ 10 * t := by
      have h1 : (n : ℚ) ≤ 10 * t := by linarith
      exact_mod_cast h1
    rcases Nat.eq_or_lt_of_le hn with heq | hlt
    · have : ((n : ℚ) / 10) = (t : ℚ) := by
        rw [heq]; push_cast; ring
      rw [this, hfix] at h
      exact lt_irrefl _ h
    · rcases Nat.eq_zero_or_pos n with h0 | hpos
      · rw [h0] at h
        simp [toFloat32_zero] at h
        linarith
      · have hx : (0 : ℚ) < (n : ℚ) / 10 := by positivity
        have hq : (n : ℚ) + 1 ≤ 10 * t := by exact_mod_cast hlt
        have hnear := toFloat32_near _ hx
        rw [abs_le] at hnear
        have h6 : (n : ℚ) / 10 / 2 ^ 24 < 1 / 10 := by
          rw [div_lt_iff₀ (by positivity)]
          norm_num
          linarith
        linarith
  · intro h
    have hn : 10 * t + 1 ≤ n := by
      have h1 : (10 * t : ℚ) < n := by linarith
      have h2 : 10 * t < n := by exact_mod_cast h1
      omega
    have hq : (10 * (t : ℚ)) + 1 ≤ (n : ℚ) := by exact_mod_cast hn
    have hx : (0 : ℚ) < (n : ℚ) / 10 := by linarith
    have hnear := toFloat32_near _ hx
    rw [abs_le] at hnear
    by_contra hle
    rw [not_lt] at hle
    -- `fl x ≤ t` and `x - x / 2^24 ≤ fl x` give `x (1 - 2^-24) ≤ t`
    have h7 : (n : ℚ) / 10 * (1 - 1 / 2 ^ 24) ≤ (t : ℚ) := by
      have : (n : ℚ) / 10 * (1 - 1 / 2 ^ 24) = (n : ℚ) / 10 - (n : ℚ) / 10 / 2 ^ 24 := by ring
      rw [this]
      linarith
    have h8 : ((t : ℚ) + 1 / 10) * (1 - 1 / 2 ^ 24) ≤ (n : ℚ) / 10 * (1 - 1 / 2 ^ 24) := by
      apply mul_le_mul_of_nonneg_right _ (by norm_num)
      linarith
    have h9 : (t : ℚ) < ((t : ℚ) + 1 / 10) * (1 - 1 / 2 ^ 24) := by
      norm_num
      linarith
    linarith

theorem toFloat32_gt_100 (n : Nat) :
    100 < toFloat32 ((n : ℚ) / 10) ↔ (100 : ℚ) < (n : ℚ) / 10 := by
  have h := toFloat32_threshold 100 n (by norm_num) (by exact_mod_cast toFloat32_100)
  exact_mod_cast h

theorem toFloat32_gt_125 (n : Nat) :
    125 < toFloat32 ((n : ℚ) / 10) ↔ (125 : ℚ) < (n : ℚ) / 10 := by
  have h := toFloat32_threshold 125 n (by norm_num) (by exact_mod_cast toFloat32_125)
  exact_mod_cast h

theorem toFloat32_652 : toFloat32 (652 / 10) = 4272947 / 65536 := by
  rw [toFloat32_eq_of (652 / 10) (-17) 8545894 (by norm_num) (by norm_num)
    (by rw [abs_lt]; constructor <;> norm_num)]
  norm_num

theorem toFloat32_261 : toFloat32 (261 / 10) = 13683917 / 524288 := by
  rw [toFloat32_eq_of (261 / 10) (-19) 13683917 (by norm_num) (by norm_num)
    (by rw [abs_lt]; constructor <;> norm_num)]
  norm_num

theorem toFloat32_256 : toFloat32 (256 / 10) = 13421773 / 524288 := by
  rw [toFloat32_eq_of (256 / 10) (-19) 13421773 (by norm_num) (by norm_num)
    (by rw [abs_lt]; constructor <;> norm_num)]
  norm_num

/-! ## Conversion of an accepted frame -/

theorem shiftLeft_8_add (a b : Nat) (hb : b < 256) : (a <<< 8) + b = (a <<< 8) ||| b := by
  rw [Nat.shiftLeft_eq, Nat.mul_comm]
  exact Nat.mul_add_lt_is_or (i := 8) hb a

theorem and_128_ne_zero (x : Nat) : x &&& 0x80 ≠ 0 ↔ x.testBit 7 = true := by
  have h : x &&& 0x80 = (x.testBit 7).toNat * 2 ^ 7 := Nat.and_two_pow x 7
  rw [h]
  cases x.testBit 7 <;> simp

theorem humidityOf_eq (data : List Nat) (h1 : data.getD 1 0 < 256) :
    humidityOf data =
      if specHumidity (data.getD 0 0) (data.getD 1 0) ≤ 100
      then toFloat32 (specHumidity (data.getD 0 0) (data.getD 1 0))
      else (data.getD 0 0 : ℚ) := by
  unfold humidityOf specHumidity
  rw [shiftLeft_8_add _ _ h1]
  simp only [gt_iff_lt, toFloat32_gt_100]
  split_ifs with h2 h3 h3
  · exact absurd h2 (not_lt.2 h3)
  · rfl
  · rfl
  · exact absurd (not_lt.1 h2) h3

theorem tempOf_eq (data : List Nat) (h3 : data.getD 3 0 < 256) :
    tempOf data =
      if (data.getD 2 0).testBit 7 = true then
        -(if specMagnitude (data.getD 2 0) (data.getD 3 0) ≤ 125
          then toFloat32 (specMagnitude (data.getD 2 0) (data.getD 3 0))
          else (data.getD 2 0 : ℚ))
      else
        (if specMagnitude (data.getD 2 0) (data.getD 3 0) ≤ 125
          then toFloat32 (specMagnitude (data.getD 2 0) (data.getD 3 0))
          else (data.getD 2 0 : ℚ)) := by
  unfold tempOf specMagnitude
  rw [shiftLeft_8_add _ _ h3]
  simp only [gt_iff_lt, and_128_ne_zero, toFloat32_gt_125]
  have e : ∀ m r : ℚ, (if 125 < m then (data.getD 2 0 : ℚ) else r) =
      (if m ≤ 125 then r else (data.getD 2 0 : ℚ)) := by
    intro m r
    split_ifs with h2 h4 h4
    · exact absurd h2 (not_lt.2 h4)
    · rfl
    · rfl
    · exact absurd (not_lt.1 h2) h4
  rw [e]

/-- The outcome of a call in which exactly 40 data pulses are recorded and
the frame passes the checksum test. -/
theorem accepted_outcome (led : Nat) (pin : Pin) (result : dht_reading)
    (h40 : (dataPulses (sampling pin).2.trace).length = 40)
    (hsum : frameByte pin 4 =
      (frameByte pin 0 + frameByte pin 1 + frameByte pin 2 + frameByte pin 3) % 256) :
    read_from_dht led pin result =
      .returned { humidity := humidityOf (sampling pin).2.data,
                  temp_celsius := tempOf (sampling pin).2.data }
        (startEffects led ++
          [.sampling (sampling pin).2.reads (sampling pin).2.delays, .gpio_put led false]) := by
  obtain ⟨hs, hb, -⟩ := forty_pulses pin h40
  unfold read_from_dht
  rw [hs, conclude_accepted]
  rw [frameValid_iff, hb]
  exact ⟨le_refl _, hsum⟩

/-! ## The comparisons under rounding

The program compares the rounded quotient with 100 and with 125. The
comparison comes out as on the exact quotient not only for `toFloat32`
(`toFloat32_threshold`) but for every rounding that is monotone, leaves the
threshold fixed and has a relative error of at most `2 ^ (-23)`. -/

theorem threshold_under_rounding (fl : ℚ → ℚ)
    (hmono : ∀ x y : ℚ, x ≤ y → fl x ≤ fl y)
    (hacc : ∀ x : ℚ, 0 ≤ x → x * (1 - 1 / 2 ^ 23) ≤ fl x)
    (t n : Nat) (ht : t ≤ 1000) (hfix : fl (t : ℚ) = (t : ℚ)) :
    (t : ℚ) < fl ((n : ℚ) / 10) ↔ (t : ℚ) < (n : ℚ) / 10 := by
  constructor
  · intro h
    by_contra hle
    have := hmono _ _ (not_lt.1 hle)
    rw [hfix] at this
    exact absurd h (not_lt.2 this)
  · intro h
    have hn : 10 * t + 1 ≤ n := by
      have h1 : (10 * t : ℚ) < n := by linarith
      have h2 : 10 * t < n := by exact_mod_cast h1
      omega
    have hq : ((10 * t + 1 : Nat) : ℚ) ≤ (n : ℚ) := by exact_mod_cast hn
    push_cast at hq
    have hx : (0 : ℚ) ≤ (n : ℚ) / 10 := by positivity
    have h3 := hacc _ hx
    have ht' : (t : ℚ) ≤ 1000 := by exact_mod_cast ht
    have ht0 : (0 : ℚ) ≤ (t : ℚ) := by positivity
    have h4 : (t : ℚ) < (n : ℚ) / 10 * (1 - 1 / 2 ^ 23) := by
      have : ((t : ℚ) + 1 / 10) * (1 - 1 / 2 ^ 23) ≤ (n : ℚ) / 10 * (1 - 1 / 2 ^ 23) := by
        apply mul_le_mul_of_nonneg_right _ (by norm_num)
        linarith
      have h5 : (t : ℚ) < ((t : ℚ) + 1 / 10) * (1 - 1 / 2 ^ 23) := by
        norm_num
        linarith
      linarith
    linarith

/-! ## Dependence of the loop on the line -/

/-- The inner loop reads the line at the indices from `reads` up to the index
it returns, and at no other. -/
theorem pollWhile_agree (pin pin2 : Pin) (prev : Bool) :
    ∀ fuel reads count c r, pollWhile pin prev fuel reads count = some (c, r) →
      reads < r ∧
      ((∀ n, reads ≤ n → n < r → pin2 n = pin n) →
        pollWhile pin2 prev fuel reads count = some (c, r)) := by
  intro fuel
  induction fuel with
  | zero => intro reads count c r h; simp [pollWhile] at h
  | succ fuel ih =>
    intro reads count c r h
    unfold pollWhile at h ⊢
    by_cases hp : pin reads = prev
    · by_cases hc : count + 1 = 255
      · simp only [hp, beq_self_eq_true, if_true, hc, Option.some.injEq, Prod.mk.injEq] at h
        obtain ⟨rfl, rfl⟩ := h
        refine ⟨by omega, fun hag => ?_⟩
        have h2 : pin2 reads = prev := by rw [hag reads (le_refl _) (by omega), hp]
        simp [h2, hc]
      · simp only [hp, beq_self_eq_true, if_true, hc, beq_iff_eq, if_false] at h
        obtain ⟨hlt, hrec⟩ := ih (reads + 1) (count + 1) c r h
        refine ⟨by omega, fun hag => ?_⟩
        have h2 : pin2 reads = prev := by rw [hag reads (le_refl _) (by omega), hp]
        simp only [h2, beq_self_eq_true, if_true, hc, beq_iff_eq, if_false]
        exact hrec (fun n hn1 hn2 => hag n (by omega) hn2)
    · have hp1 : (pin reads == prev) = false := by simpa using hp
      simp only [hp1, Bool.false_eq_true, if_false, Option.some.injEq, Prod.mk.injEq] at h
      obtain ⟨rfl, rfl⟩ := h
      refine ⟨by omega, fun hag => ?_⟩
      have h2 : (pin2 reads == prev) = false := by
        rw [hag reads (le_refl _) (by omega)]; exact hp1
      simp [h2]

theorem pollWhile_some (pin : Pin) (prev : Bool) (reads : Nat) :
    ∃ c r, pollWhile pin prev 255 reads 0 = some (c, r) ∧ c ≤ 255 := by
  obtain ⟨c, -, hc2, -, hc4⟩ := pollWhile_spec pin prev 255 reads 0 (by decide) (by decide)
  rcases hc4 with ⟨-, hp⟩ | ⟨-, -, hp⟩
  · exact ⟨_, _, hp, hc2⟩
  · exact ⟨_, _, hp, hc2⟩

theorem appendBit_reads (count : Nat) (s s1 : LoopState) (h : appendBit count s = some s1) :
    s1.reads = s.reads ∧ s1.delays = s.delays := by
  unfold appendBit at h
  simp only at h
  split at h
  · split at h
    · simp only [Option.some.injEq] at h; subst h; exact ⟨rfl, rfl⟩
    · simp only [Option.some.injEq] at h; subst h; exact ⟨rfl, rfl⟩
  · simp at h

/-- What one pass through the loop body does with the line: it runs the inner
loop, reads the line once more, and uses nothing else of it. -/
theorem loopBody_reads (pin : Pin) (s : LoopState) :
    ∃ c r, pollWhile pin s.previous_pin_state 255 s.reads 0 = some (c, r) ∧ s.reads < r ∧
      (∀ s1, loopBody pin s = .next s1 → c ≠ 255 ∧ s1.reads = r + 1) ∧
      (∀ e s1, loopBody pin s = .stop e s1 →
        s1.reads = r + 1 ∧
        (e = .timed_out → c = 255 ∧ s1 = { s with
          previous_pin_state := pin r, reads := r + 1, delays := s.delays + 255 })) := by
  obtain ⟨c, r, hp, -⟩ := pollWhile_some pin s.previous_pin_state s.reads
  have hlt := (pollWhile_agree pin pin _ _ _ _ _ _ hp).1
  refine ⟨c, r, hp, hlt, ?_, ?_⟩
  · intro s1 h
    unfold loopBody at h
    rw [hp] at h
    simp only at h
    by_cases hc : c = 255
    · simp [hc] at h
    · refine ⟨hc, ?_⟩
      have hc1 : (c == 255) = false := by simpa using hc
      simp only [hc1, Bool.false_eq_true, if_false] at h
      split at h
      · split at h
        · simp at h
        · rename_i s3 happ
          simp only [Step.next.injEq] at h
          subst h
          rw [(appendBit_reads _ _ _ happ).1]
      · simp only [Step.next.injEq] at h
        subst h; rfl
  · intro e s1 h
    unfold loopBody at h
    rw [hp] at h
    simp only at h
    by_cases hc : c = 255
    · subst hc
      simp only [beq_self_eq_true, if_true, Step.stop.injEq] at h
      obtain ⟨rfl, rfl⟩ := h
      exact ⟨rfl, fun _ => ⟨rfl, rfl⟩⟩
    · have hc1 : (c == 255) = false := by simpa using hc
      simp only [hc1, Bool.false_eq_true, if_false] at h
      split at h
      · split at h
        · simp only [Step.stop.injEq] at h
          obtain ⟨rfl, rfl⟩ := h
          exact ⟨rfl, fun he => by simp at he⟩
        · simp at h
      · simp at h

/-- The loop body gives the same result on two lines that agree where it
reads, the last read of a timed-out pass excepted. -/
theorem loopBody_agree (pin pin2 : Pin) (s : LoopState) :
    (∀ s1, loopBody pin s = .next s1 → (∀ n, n < s1.reads → pin2 n = pin n) →
      loopBody pin2 s = .next s1) ∧
    (∀ s1, loopBody pin s = .stop .timed_out s1 → (∀ n, n + 1 < s1.reads → pin2 n = pin n) →
      loopBody pin2 s = .stop .timed_out { s1 with previous_pin_state := pin2 (s1.reads - 1) }) := by
  obtain ⟨c, r, hp, hlt, hnext, hstop⟩ := loopBody_reads pin s
  constructor
  · intro s1 h hag
    obtain ⟨-, hr⟩ := hnext s1 h
    have hp2 := (pollWhile_agree pin pin2 _ _ _ _ _ _ hp).2
      (fun n _ hn2 => hag n (by omega))
    have hpin : pin2 r = pin r := hag r (by omega)
    unfold loopBody at h ⊢
    rw [hp] at h
    rw [hp2]
    simp only at h ⊢
    rw [hpin]
    exact h
  · intro s1 h hag
    obtain ⟨hr, hto⟩ := hstop _ s1 h
    obtain ⟨rfl, rfl⟩ := hto rfl
    have hp2 := (pollWhile_agree pin pin2 _ _ _ _ _ _ hp).2
      (fun n _ hn2 => hag n (by simpa using hn2))
    unfold loopBody
    rw [hp2]
    simp

theorem forLoop_reads_le (pin : Pin) :
    ∀ fuel s, s.reads ≤ (forLoop pin fuel s).2.reads := by
  intro fuel
  induction fuel with
  | zero => intro s; exact le_refl _
  | succ fuel ih =>
    intro s
    obtain ⟨c, r, -, hlt, hnext, hstop⟩ := loopBody_reads pin s
    rw [forLoop]
    split
    · cases hb : loopBody pin s with
      | next s1 =>
        have := (hnext s1 hb).2
        have := ih { s1 with i := s1.i + 1 }
        simp only at this ⊢
        omega
      | stop e s1 =>
        have := (hstop e s1 hb).1
        simp only
        omega
    · exact le_refl _

/-- A loop that ends by the timeout ends in the same way, with the same
variables apart from `previous_pin_state`, on every line that agrees with the
given one before the last read. -/
theorem forLoop_agree (pin pin2 : Pin) :
    ∀ fuel s s1, forLoop pin fuel s = (.timed_out, s1) →
      (∀ n, n + 1 < s1.reads → pin2 n = pin n) →
      forLoop pin2 fuel s =
        (.timed_out, { s1 with previous_pin_state := pin2 (s1.reads - 1) }) := by
  intro fuel
  induction fuel with
  | zero => intro s s1 h; simp [forLoop] at h
  | succ fuel ih =>
    intro s s1 h hag
    rw [forLoop] at h ⊢
    by_cases hi : s.i < MAX_TIMINGS
    · rw [if_pos hi] at h ⊢
      obtain ⟨hnext, hstop⟩ := loopBody_agree pin pin2 s
      cases hb : loopBody pin s with
      | next s2 =>
        rw [hb] at h
        simp only at h
        have hle := forLoop_reads_le pin fuel { s2 with i := s2.i + 1 }
        rw [h] at hle
        simp only at hle
        have hlast : s2.reads < s1.reads := by
          -- the loop started from `s2` makes at least one read
          cases fuel with
          | zero => simp [forLoop] at h
          | succ fuel =>
            rw [forLoop] at h
            split at h
            · obtain ⟨c, r, -, hlt, hnx, hst⟩ := loopBody_reads pin { s2 with i := s2.i + 1 }
              cases hb2 : loopBody pin { s2 with i := s2.i + 1 } with
              | next s3 =>
                rw [hb2] at h
                simp only at h
                have h3 := (hnx s3 hb2).2
                have hle3 := forLoop_reads_le pin fuel { s3 with i := s3.i + 1 }
                rw [h] at hle3
                simp only at hle3 hlt
                omega
              | stop e s3 =>
                rw [hb2] at h
                simp only [Prod.mk.injEq] at h
                obtain ⟨-, rfl⟩ := h
                have h3 := (hst e s3 hb2).1
                simp only at hlt
                omega
            · simp at h
        rw [hnext s2 hb (fun n hn => hag n (by omega))]
        exact ih _ _ h hag
      | stop e s2 =>
        rw [hb] at h
        simp only [Prod.mk.injEq] at h
        obtain ⟨rfl, rfl⟩ := h
        rw [hstop s2 hb hag]
    · rw [if_neg hi] at h
      simp at h

/-- A pass of the loop that sees the tracked level on 255 consecutive polls
ends the loop. -/
theorem forLoop_timeout (pin : Pin) (fuel : Nat) (s : LoopState)
    (hi : s.i < MAX_TIMINGS)
    (hline : ∀ k, k < 255 → pin (s.reads + k) = s.previous_pin_state) :
    forLoop pin (fuel + 1) s =
      (.timed_out, { s with
        previous_pin_state := pin (s.reads + 255), reads := s.reads + 256,
        delays := s.delays + 255 }) := by
  obtain ⟨c, -, -, -, hc4⟩ := pollWhile_spec pin s.previous_pin_state 255 s.reads 0
    (by decide) (by decide)
  simp only [Nat.sub_zero] at hc4
  rcases hc4 with ⟨rfl, hp⟩ | ⟨hlt, hne, -⟩
  · rw [forLoop, if_pos hi]
    unfold loopBody
    rw [hp]
    simp
  · exact absurd (hline c hlt) hne

theorem conclude_previous_pin_state (led : Nat) (result : dht_reading) (e : Exit)
    (s : LoopState) (level : Bool) :
    conclude led result (e, { s with previous_pin_state := level }) =
      conclude led result (e, s) := by
  cases e <;> rfl

/-! ## The calls of one call -/

theorem callsMade_cases (led : Nat) (pin : Pin) (result : dht_reading) :
    ∃ rest, callsMade led pin result =
        startEffects led ++
          ([.sampling (sampling pin).2.reads (sampling pin).2.delays] ++ rest) ∧
      (rest = [] ∨ rest = [.gpio_put led false] ∨
        rest = [.gpio_put led false, .printf "Bad data\n"]) := by
  have hf := sampling_final pin
  unfold callsMade read_from_dht
  rcases hf.exit with ⟨he, -⟩ | ⟨he, -⟩
  · rw [show sampling pin = (.timed_out, (sampling pin).2) from Prod.ext he rfl]
    by_cases hv : frameValid (sampling pin).2.data (sampling pin).2.received_data_bits = true
    · rw [conclude_accepted _ _ _ hv]
      exact ⟨_, rfl, Or.inr (Or.inl rfl)⟩
    · rw [conclude_rejected _ _ _ (by simpa using hv)]
      exact ⟨_, rfl, Or.inr (Or.inr rfl)⟩
  · rw [show sampling pin = (.out_of_bounds, (sampling pin).2) from Prod.ext he rfl]
    exact ⟨[], by simp [conclude], Or.inl rfl⟩

/-! ## The variables during the loop -/

/-- After any number of passes the loop is at its test in a state satisfying
the invariant, or it has ended. -/
theorem forLoop_inv (pin : Pin) :
    ∀ fuel s, Inv s →
      ((forLoop pin fuel s).1 = .out_of_fuel ∧ Inv (forLoop pin fuel s).2) ∨
      Final (forLoop pin fuel s).1 (forLoop pin fuel s).2 := by
  intro fuel
  induction fuel with
  | zero => intro s hinv; exact Or.inl ⟨rfl, hinv⟩
  | succ fuel ih =>
    intro s hinv
    have hlt := hinv.lt
    rw [forLoop, if_pos hlt]
    rcases loopBody_spec pin s hinv with ⟨c, s1, -, hb, hinv1, -, -⟩ | ⟨level, -, hb⟩ |
      ⟨s1, hb, hfin⟩
    · rw [hb]
      exact ih _ hinv1
    · rw [hb]
      right
      constructor
      · left; exact ⟨rfl, hinv.len⟩
      · exact hlt
      · simp only
        rw [decoded_eq_of_le _ (by have := hinv.len; unfold MAX_TIMINGS at hlt; omega)]
        exact hinv.dec
      · exact hinv.wr
      · have := hinv.rd; simp only; omega
      · have := hinv.dl; simp only; omega
      · exact hinv.tr
    · rw [hb]
      exact Or.inr hfin

/-- At the loop test and at the end of the loop, the accumulator holds the
packing of at most 40 bits. -/
theorem state_is_pack (pin : Pin) (fuel : Nat) :
    ∃ bits : List Bool, bits.length ≤ 40 ∧
      ((forLoop pin fuel LoopState.init).2.data,
       (forLoop pin fuel LoopState.init).2.received_data_bits) = pack bits := by
  rcases forLoop_inv pin fuel _ Inv.init with ⟨-, hinv⟩ | hfin
  · refine ⟨_, ?_, hinv.dec⟩
    have h1 := hinv.len
    have h2 := hinv.lt
    unfold MAX_TIMINGS at h2
    simp only [List.length_map, dataPulses_length]
    omega
  · exact ⟨_, by simp, hfin.dec⟩

theorem decoded_congr (t1 t2 : List Nat) (hlen : t1.length = t2.length)
    (h : ∀ k, k < (t1.length - 3) / 2 →
      (16 < t1.getD (4 + 2 * k) 0 ↔ 16 < t2.getD (4 + 2 * k) 0)) :
    decoded t1 = decoded t2 := by
  have e : (dataPulses t1).map bitOfPulse = (dataPulses t2).map bitOfPulse := by
    unfold dataPulses
    rw [List.map_map, List.map_map, ← hlen]
    apply List.map_congr_left
    intro k hk
    rw [List.mem_range] at hk
    simp only [Function.comp, bitOfPulse]
    exact decide_eq_decide.2 (h k hk)
  unfold decoded
  rw [List.map_take, List.map_take, e]

theorem conclude_congr (led : Nat) (result : dht_reading) (e : Exit) (s1 s2 : LoopState)
    (hd : s1.data = s2.data) (hb : s1.received_data_bits = s2.received_data_bits)
    (hr : s1.reads = s2.reads) (hl : s1.delays = s2.delays) :
    conclude led result (e, s1) = conclude led result (e, s2) := by
  cases e <;> simp [conclude, hd, hb, hr, hl]

theorem humidityOf_range (data : List Nat) :
    0 ≤ humidityOf data ∧ (100 < humidityOf data ↔ 100 < data.getD 0 0) := by
  unfold humidityOf
  simp only [gt_iff_lt, Nat.shiftLeft_eq, toFloat32_gt_100]
  have hq : (0 : ℚ) ≤
      toFloat32 (((data.getD 0 0 * 2 ^ 8 + data.getD 1 0 : Nat) : ℚ) / 10) :=
    toFloat32_nonneg _ (by positivity)
  split_ifs with h
  · refine ⟨by positivity, ?_⟩
    exact_mod_cast Iff.rfl
  · refine ⟨hq, ?_⟩
    have hle : ¬ 100 <
        toFloat32 (((data.getD 0 0 * 2 ^ 8 + data.getD 1 0 : Nat) : ℚ) / 10) := by
      rw [toFloat32_gt_100]; exact h
    constructor
    · intro h2; exact absurd h2 hle
    · intro h2
      exfalso
      apply h
      have h3 : 101 ≤ data.getD 0 0 := h2
      have h4 : (101 * 2 ^ 8 : ℚ) ≤ ((data.getD 0 0 * 2 ^ 8 + data.getD 1 0 : Nat) : ℚ) := by
        have : 101 * 2 ^ 8 ≤ data.getD 0 0 * 2 ^ 8 + data.getD 1 0 := by
          have := Nat.mul_le_mul_right (2 ^ 8) h3
          omega
        exact_mod_cast this
      rw [lt_div_iff₀ (by norm_num)]
      norm_num at h4 ⊢
      linarith

theorem humidityOf_02_8C (b2 b3 b4 : Nat) :
    humidityOf [0x02, 0x8C, b2, b3, b4] = 4272947 / 65536 := by
  rw [humidityOf_eq _ (by simp)]
  have e : specHumidity 0x02 0x8C = 652 / 10 := by
    unfold specHumidity
    rw [show ((0x02 <<< 8) ||| 0x8C : Nat) = 652 from by decide]
    norm_num
  simp only [List.getD_cons_zero, List.getD_cons_succ]
  rw [e, if_pos (by norm_num), toFloat32_652]

theorem tempOf_01_05 (b0 b1 b4 : Nat) :
    tempOf [b0, b1, 0x01, 0x05, b4] = 13683917 / 524288 := by
  rw [tempOf_eq _ (by simp)]
  have e : specMagnitude 0x01 0x05 = 261 / 10 := by
    unfold specMagnitude
    rw [show (((0x01 &&& 0x7F) <<< 8) ||| 0x05 : Nat) = 261 from by decide]
    norm_num
  simp only [List.getD_cons_zero, List.getD_cons_succ]
  rw [e, if_neg (by decide), if_pos (by norm_num), toFloat32_261]

theorem tempOf_81_00 (b0 b1 b4 : Nat) :
    tempOf [b0, b1, 0x81, 0x00, b4] = -(13421773 / 524288) := by
  rw [tempOf_eq _ (by simp)]
  have e : specMagnitude 0x81 0x00 = 256 / 10 := by
    unfold specMagnitude
    rw [show (((0x81 &&& 0x7F) <<< 8) ||| 0x00 : Nat) = 256 from by decide]
    norm_num
  simp only [List.getD_cons_zero, List.getD_cons_succ]
  rw [e, if_pos (by decide), if_pos (by norm_num), toFloat32_256]

/-! ## The properties -/

set_option maxRecDepth 100000 in
/-- C1, as stated, fails. The test line `framePin` delivers the frame
02 8C 01 05 92 as a well-formed pulse sequence, and `read_from_dht` rejects
it: `*result` keeps its contents, "Bad data" is printed, and the reading
65.2 / 26.1 is not returned. The first four bytes sum to 0x94, not 0x92.
With the last byte 0x94 the frame is accepted, and the values written are
the `float`s 4272947/65536 and 13683917/524288, not 652/10 and 261/10. -/
theorem C1_counterexample :
    Delivers (framePin [0x02, 0x8C, 0x01, 0x05, 0x92]) [0x02, 0x8C, 0x01, 0x05, 0x92] ∧
    (0x02 + 0x8C + 0x01 + 0x05) % 256 = 0x94 ∧
    read_from_dht 25 (framePin [0x02, 0x8C, 0x01, 0x05, 0x92]) ⟨0, 0⟩ =
      .returned ⟨0, 0⟩ (startEffects 25 ++
        [.sampling (sampling (framePin [0x02, 0x8C, 0x01, 0x05, 0x92])).2.reads
           (sampling (framePin [0x02, 0x8C, 0x01, 0x05, 0x92])).2.delays,
         .gpio_put 25 false, .printf "Bad data\n"]) ∧
    (¬ ∃ effects, read_from_dht 25 (framePin [0x02, 0x8C, 0x01, 0x05, 0x92]) ⟨0, 0⟩ =
      .returned ⟨652 / 10, 261 / 10⟩ effects) ∧
    (¬ ∃ effects, read_from_dht 25 (framePin [0x02, 0x8C, 0x01, 0x05, 0x94]) ⟨0, 0⟩ =
      .returned ⟨652 / 10, 261 / 10⟩ effects) := by
  have hd : Delivers (framePin [0x02, 0x8C, 0x01, 0x05, 0x92])
      [0x02, 0x8C, 0x01, 0x05, 0x92] := by decide!
  have hr := delivers_rejected 25 _ ⟨0, 0⟩ 0x02 0x8C 0x01 0x05 0x92
    (by decide) (by decide) (by decide) (by decide) (by decide) hd (by decide)
  have hd2 : Delivers (framePin [0x02, 0x8C, 0x01, 0x05, 0x94])
      [0x02, 0x8C, 0x01, 0x05, 0x94] := by decide!
  have ha := delivers_accepted 25 _ ⟨0, 0⟩ 0x02 0x8C 0x01 0x05 0x94
    (by decide) (by decide) (by decide) (by decide) (by decide) hd2 (by decide)
  rw [humidityOf_02_8C, tempOf_01_05] at ha
  refine ⟨hd, by decide, hr, ?_, ?_⟩
  · rintro ⟨effects, he⟩
    rw [hr] at he
    injection he with h1 h2
    injection h1 with h3 h4
    norm_num at h3
  · rintro ⟨effects, he⟩
    rw [ha] at he
    injection he with h1 h2
    injection h1 with h3 h4
    norm_num at h3

/-- C1, amended. When the line delivers the frame 02 8C 01 05 94, whose last
byte is the sum of the first four, as a well-formed pulse sequence (83 or 84
recorded durations, the data pulse of bit `k` at loop index `4 + 2 * k`
longer than 16 counts exactly when the bit is 1, then a timeout),
`read_from_dht` accepts it and writes into `*result` the humidity
4272947/65536 and the temperature 13683917/524288, the `float`s nearest to
652/10 and 261/10. -/
theorem C1_scenario (led : Nat) (pin : Pin) (result : dht_reading)
    (h : Delivers pin [0x02, 0x8C, 0x01, 0x05, 0x94]) :
    read_from_dht led pin result =
      .returned { humidity := 4272947 / 65536, temp_celsius := 13683917 / 524288 }
        (startEffects led ++
          [.sampling (sampling pin).2.reads (sampling pin).2.delays, .gpio_put led false]) ∧
    toFloat32 (652 / 10) = 4272947 / 65536 ∧
    toFloat32 (261 / 10) = 13683917 / 524288 := by
  refine ⟨?_, toFloat32_652, toFloat32_261⟩
  rw [delivers_accepted led pin result 0x02 0x8C 0x01 0x05 0x94
    (by decide) (by decide) (by decide) (by decide) (by decide) h (by decide),
    humidityOf_02_8C, tempOf_01_05]

set_option maxRecDepth 100000 in
/-- Witness for the amended C1: the test line sending 02 8C 01 05 94. -/
theorem C1_scenario_witness :
    Delivers (framePin [0x02, 0x8C, 0x01, 0x05, 0x94]) [0x02, 0x8C, 0x01, 0x05, 0x94] ∧
    read_from_dht 25 (framePin [0x02, 0x8C, 0x01, 0x05, 0x94]) ⟨0, 0⟩ =
      .returned { humidity := 4272947 / 65536, temp_celsius := 13683917 / 524288 }
        (startEffects 25 ++
          [.sampling (sampling (framePin [0x02, 0x8C, 0x01, 0x05, 0x94])).2.reads
             (sampling (framePin [0x02, 0x8C, 0x01, 0x05, 0x94])).2.delays,
           .gpio_put 25 false]) :=
  ⟨by decide!,
   (C1_scenario 25 (framePin [0x02, 0x8C, 0x01, 0x05, 0x94]) ⟨0, 0⟩ (by decide!)).1⟩

/-- C2. Checksum property: in every run in which exactly 40 data pulses are
recorded, so that `received_data_bits` is 40, and `data[4]` differs from
`(data[0] + data[1] + data[2] + data[3]) mod 256`, `read_from_dht` rejects:
`*result` keeps the contents it had on entry and "Bad data" is printed. -/
theorem C2_checksum_mismatch (led : Nat) (pin : Pin) (result : dht_reading)
    (h40 : (dataPulses (sampling pin).2.trace).length = 40)
    (hsum : frameByte pin 4 ≠
      (frameByte pin 0 + frameByte pin 1 + frameByte pin 2 + frameByte pin 3) % 256) :
    (sampling pin).2.received_data_bits = 40 ∧
    read_from_dht led pin result =
      .returned result (startEffects led ++
        [.sampling (sampling pin).2.reads (sampling pin).2.delays, .gpio_put led false,
         .printf "Bad data\n"]) := by
  obtain ⟨hs, hb, -⟩ := forty_pulses pin h40
  refine ⟨hb, ?_⟩
  unfold read_from_dht
  rw [hs]
  apply conclude_rejected
  rw [Bool.eq_false_iff]
  intro hv
  exact hsum ((frameValid_iff _ _).1 hv).2

set_option maxRecDepth 100000 in
/-- Witness for C2: the frame 02 8C 01 05 92, whose last byte is not the sum
0x94 of the first four. -/
theorem C2_checksum_mismatch_witness :
    (dataPulses (sampling (framePin [0x02, 0x8C, 0x01, 0x05, 0x92])).2.trace).length = 40 ∧
    (sampling (framePin [0x02, 0x8C, 0x01, 0x05, 0x92])).2.data =
      [0x02, 0x8C, 0x01, 0x05, 0x92] ∧
    (sampling (framePin [0x02, 0x8C, 0x01, 0x05, 0x92])).2.received_data_bits = 40 ∧
    read_from_dht 25 (framePin [0x02, 0x8C, 0x01, 0x05, 0x92]) ⟨1, 2⟩ =
      .returned ⟨1, 2⟩ (startEffects 25 ++
        [.sampling (sampling (framePin [0x02, 0x8C, 0x01, 0x05, 0x92])).2.reads
           (sampling (framePin [0x02, 0x8C, 0x01, 0x05, 0x92])).2.delays,
         .gpio_put 25 false, .printf "Bad data\n"]) :=
  ⟨by decide!, by decide!,
   C2_checksum_mismatch 25 (framePin [0x02, 0x8C, 0x01, 0x05, 0x92]) ⟨1, 2⟩
      (by decide!) (by decide!)⟩

/-- C3. Length property: when fewer than 40 data pulses are recorded before
sampling stops, `received_data_bits` is their number, below 40, and
`read_from_dht` rejects: `*result` keeps its contents and "Bad data" is
printed, whatever `data` holds. -/
theorem C3_insufficient_bits (led : Nat) (pin : Pin) (result : dht_reading)
    (h : (dataPulses (sampling pin).2.trace).length < 40) :
    (sampling pin).2.received_data_bits = (dataPulses (sampling pin).2.trace).length ∧
    (sampling pin).2.received_data_bits < 40 ∧
    read_from_dht led pin result =
      .returned result (startEffects led ++
        [.sampling (sampling pin).2.reads (sampling pin).2.delays, .gpio_put led false,
         .printf "Bad data\n"]) := by
  have hf := sampling_final pin
  have hb := hf.bits
  rw [dataPulses_length] at h ⊢
  have hb2 : (sampling pin).2.received_data_bits = ((sampling pin).2.trace.length - 3) / 2 := by
    omega
  have ht : (sampling pin).1 = .timed_out := hf.timed_out_iff.2 (by omega)
  refine ⟨hb2, by omega, ?_⟩
  unfold read_from_dht
  rw [show sampling pin = (.timed_out, (sampling pin).2) from Prod.ext ht rfl]
  apply conclude_rejected
  simp [frameValid]
  intro h40
  omega

set_option maxRecDepth 100000 in
/-- Witness for C3: a line that stays high. No pulse is recorded, `data` is
all zero and so satisfies the checksum equation, and the call rejects. -/
theorem C3_insufficient_bits_witness :
    (dataPulses (sampling (fun _ => true)).2.trace).length < 40 ∧
    (sampling (fun _ => true)).2.data = [0, 0, 0, 0, 0] ∧
    read_from_dht 25 (fun _ => true) ⟨1, 2⟩ =
      .returned ⟨1, 2⟩ (startEffects 25 ++
        [.sampling 256 255, .gpio_put 25 false, .printf "Bad data\n"]) :=
  ⟨by decide!, by decide!,
   (C3_insufficient_bits 25 (fun _ => true) ⟨1, 2⟩ (by decide!)).2.2.trans (by decide!)⟩

/-- C4. Round trip: for every frame of five bytes and every line that
delivers it (83 or 84 recorded durations, then a timeout, the duration at
loop index `4 + 2 * k` above 16 exactly when bit `k` of the frame is 1), the
sampling loop ends by the timeout with `data` equal to the frame and
`received_data_bits = 40`; every recorded duration is below 255. In
particular a pulse of 16 counts shifts a 0 into `data` and a pulse of 17
counts a 1. -/
theorem C4_round_trip (pin : Pin) (frame : List Nat)
    (hlen : frame.length = 5) (hbyte : ∀ b, b ∈ frame → b < 256)
    (h : Delivers pin frame) :
    ((sampling pin).1 = .timed_out ∧
     (sampling pin).2.data = frame ∧
     (sampling pin).2.received_data_bits = 40 ∧
     ∀ d, d ∈ (sampling pin).2.trace → d < 255) ∧
    (appendBit 16 LoopState.init).map (fun s => s.data) = some [0, 0, 0, 0, 0] ∧
    (appendBit 17 LoopState.init).map (fun s => s.data) = some [1, 0, 0, 0, 0] := by
  obtain ⟨b0, b1, b2, b3, b4, rfl⟩ := list_of_length_five frame hlen
  obtain ⟨hs, hd, hb⟩ := delivers_state pin b0 b1 b2 b3 b4
    (hbyte b0 (by simp)) (hbyte b1 (by simp)) (hbyte b2 (by simp)) (hbyte b3 (by simp))
    (hbyte b4 (by simp)) h
  exact ⟨⟨congrArg Prod.fst hs, hd, hb, (sampling_final pin).tr⟩, by decide, by decide⟩

set_option maxRecDepth 100000 in
/-- Witness for C4: the frame A5 3C 00 FF 81 sent with data pulses of exactly
16 counts for a 0 and 17 counts for a 1. -/
theorem C4_round_trip_witness :
    (sampling (framePin [0xA5, 0x3C, 0x00, 0xFF, 0x81])).2.trace =
      frameDurations 16 17 3 (frameBits [0xA5, 0x3C, 0x00, 0xFF, 0x81]) ∧
    Delivers (framePin [0xA5, 0x3C, 0x00, 0xFF, 0x81]) [0xA5, 0x3C, 0x00, 0xFF, 0x81] ∧
    ((sampling (framePin [0xA5, 0x3C, 0x00, 0xFF, 0x81])).1 = .timed_out ∧
     (sampling (framePin [0xA5, 0x3C, 0x00, 0xFF, 0x81])).2.data =
       [0xA5, 0x3C, 0x00, 0xFF, 0x81] ∧
     (sampling (framePin [0xA5, 0x3C, 0x00, 0xFF, 0x81])).2.received_data_bits = 40 ∧
     ∀ d, d ∈ (sampling (framePin [0xA5, 0x3C, 0x00, 0xFF, 0x81])).2.trace → d < 255) :=
  ⟨by decide!, by decide!,
   (C4_round_trip (framePin [0xA5, 0x3C, 0x00, 0xFF, 0x81]) [0xA5, 0x3C, 0x00, 0xFF, 0x81]
     (by decide) (by decide) (by decide!)).1⟩

set_option maxRecDepth 100000 in
/-- C5, as stated, fails. The test line sending 02 8C 01 05 94 is accepted
with 40 bits and a matching checksum; `((byte0 << 8) | byte1) / 10` is
652/10, at most 100, and the humidity written is the `float`
4272947/65536, which is not 652/10. -/
theorem C5_counterexample :
    (dataPulses (sampling (framePin [0x02, 0x8C, 0x01, 0x05, 0x94])).2.trace).length = 40 ∧
    (sampling (framePin [0x02, 0x8C, 0x01, 0x05, 0x94])).2.data =
      [0x02, 0x8C, 0x01, 0x05, 0x94] ∧
    specHumidity 0x02 0x8C = 652 / 10 ∧
    specHumidity 0x02 0x8C ≤ 100 ∧
    read_from_dht 25 (framePin [0x02, 0x8C, 0x01, 0x05, 0x94]) ⟨0, 0⟩ =
      .returned { humidity := 4272947 / 65536, temp_celsius := 13683917 / 524288 }
        (startEffects 25 ++
          [.sampling (sampling (framePin [0x02, 0x8C, 0x01, 0x05, 0x94])).2.reads
             (sampling (framePin [0x02, 0x8C, 0x01, 0x05, 0x94])).2.delays,
           .gpio_put 25 false]) ∧
    (4272947 / 65536 : ℚ) ≠ specHumidity 0x02 0x8C := by
  have h40 : (dataPulses (sampling (framePin [0x02, 0x8C, 0x01, 0x05, 0x94])).2.trace).length
      = 40 := by decide!
  have hd : (sampling (framePin [0x02, 0x8C, 0x01, 0x05, 0x94])).2.data =
      [0x02, 0x8C, 0x01, 0x05, 0x94] := by decide!
  have hv : specHumidity 0x02 0x8C = 652 / 10 := by
    unfold specHumidity
    rw [show ((0x02 <<< 8) ||| 0x8C : Nat) = 652 from by decide]
    norm_num
  have ha := accepted_outcome 25 (framePin [0x02, 0x8C, 0x01, 0x05, 0x94]) ⟨0, 0⟩ h40
    (by simp only [frameByte, hd]; rfl)
  rw [hd, humidityOf_02_8C, tempOf_01_05] at ha
  refine ⟨h40, hd, hv, ?_, ha, ?_⟩
  · rw [hv]; norm_num
  · rw [hv]; norm_num

/-- C5, amended. Humidity conversion and clamp: for every run with 40
received bits and a matching checksum, `read_from_dht` writes a reading whose
humidity is the `float` nearest to `((byte0 << 8) | byte1) / 10` when that
value is at most 100, and `byte0` when it exceeds 100; the sum
`(data[0] << 8) + data[1]` of the code equals the bitwise-or form. -/
theorem C5_humidity (led : Nat) (pin : Pin) (result : dht_reading)
    (h40 : (dataPulses (sampling pin).2.trace).length = 40)
    (hsum : frameByte pin 4 =
      (frameByte pin 0 + frameByte pin 1 + frameByte pin 2 + frameByte pin 3) % 256) :
    (frameByte pin 0 <<< 8) + frameByte pin 1 = (frameByte pin 0 <<< 8) ||| frameByte pin 1 ∧
    ∃ temp_celsius, read_from_dht led pin result =
      .returned
        { humidity :=
            if specHumidity (frameByte pin 0) (frameByte pin 1) ≤ 100
            then toFloat32 (specHumidity (frameByte pin 0) (frameByte pin 1))
            else (frameByte pin 0 : ℚ),
          temp_celsius := temp_celsius }
        (startEffects led ++
          [.sampling (sampling pin).2.reads (sampling pin).2.delays, .gpio_put led false]) := by
  have hlt := (forty_pulses pin h40).2.2
  refine ⟨shiftLeft_8_add _ _ (hlt 1), tempOf (sampling pin).2.data, ?_⟩
  rw [accepted_outcome led pin result h40 hsum, humidityOf_eq _ (hlt 1)]
  rfl

set_option maxRecDepth 100000 in
/-- Witness for the amended C5: the frame 02 8C 01 05 94 gives the `float`
nearest to 652/10, and the frame 32 00 01 05 38, with byte0 = 50 and
byte1 = 0, gives 50, since `(50 << 8) / 10 = 1280` exceeds 100. -/
theorem C5_humidity_witness :
    ((dataPulses (sampling (framePin [0x02, 0x8C, 0x01, 0x05, 0x94])).2.trace).length = 40 ∧
     (sampling (framePin [0x02, 0x8C, 0x01, 0x05, 0x94])).2.data =
       [0x02, 0x8C, 0x01, 0x05, 0x94] ∧
     ∃ temp_celsius, read_from_dht 25 (framePin [0x02, 0x8C, 0x01, 0x05, 0x94]) ⟨0, 0⟩ =
       .returned { humidity := 4272947 / 65536, temp_celsius := temp_celsius }
         (startEffects 25 ++
           [.sampling (sampling (framePin [0x02, 0x8C, 0x01, 0x05, 0x94])).2.reads
              (sampling (framePin [0x02, 0x8C, 0x01, 0x05, 0x94])).2.delays,
            .gpio_put 25 false])) ∧
    ((dataPulses (sampling (framePin [50, 0, 1, 5, 56])).2.trace).length = 40 ∧
     (sampling (framePin [50, 0, 1, 5, 56])).2.data = [50, 0, 1, 5, 56] ∧
     specHumidity 50 0 = 1280 ∧
     ∃ temp_celsius, read_from_dht 25 (framePin [50, 0, 1, 5, 56]) ⟨0, 0⟩ =
       .returned { humidity := 50, temp_celsius := temp_celsius }
         (startEffects 25 ++
           [.sampling (sampling (framePin [50, 0, 1, 5, 56])).2.reads
              (sampling (framePin [50, 0, 1, 5, 56])).2.delays, .gpio_put 25 false])) := by
  constructor
  · have h40 : (dataPulses (sampling (framePin [0x02, 0x8C, 0x01, 0x05, 0x94])).2.trace).length
        = 40 := by decide!
    have hd : (sampling (framePin [0x02, 0x8C, 0x01, 0x05, 0x94])).2.data =
        [0x02, 0x8C, 0x01, 0x05, 0x94] := by decide!
    have hv : specHumidity 0x02 0x8C = 652 / 10 := by
      unfold specHumidity
      rw [show ((0x02 <<< 8) ||| 0x8C : Nat) = 652 from by decide]
      norm_num
    obtain ⟨-, t, ht⟩ := C5_humidity 25 (framePin [0x02, 0x8C, 0x01, 0x05, 0x94]) ⟨0, 0⟩ h40
      (by simp only [frameByte, hd]; rfl)
    refine ⟨h40, hd, t, ?_⟩
    have e0 : frameByte (framePin [0x02, 0x8C, 0x01, 0x05, 0x94]) 0 = 0x02 := by
      rw [frameByte, hd]; rfl
    have e1 : frameByte (framePin [0x02, 0x8C, 0x01, 0x05, 0x94]) 1 = 0x8C := by
      rw [frameByte, hd]; rfl
    rw [ht, e0, e1, hv, if_pos (by norm_num), toFloat32_652]
  · have h40 : (dataPulses (sampling (framePin [50, 0, 1, 5, 56])).2.trace).length = 40 := by
      decide!
    have hd : (sampling (framePin [50, 0, 1, 5, 56])).2.data = [50, 0, 1, 5, 56] := by
      decide!
    have hv : specHumidity 50 0 = 1280 := by norm_num [specHumidity, Nat.shiftLeft_eq]
    obtain ⟨-, t, ht⟩ := C5_humidity 25 (framePin [50, 0, 1, 5, 56]) ⟨0, 0⟩ h40
      (by simp only [frameByte, hd]; rfl)
    refine ⟨h40, hd, hv, t, ?_⟩
    have e0 : frameByte (framePin [50, 0, 1, 5, 56]) 0 = 50 := by rw [frameByte, hd]; rfl
    have e1 : frameByte (framePin [50, 0, 1, 5, 56]) 1 = 0 := by rw [frameByte, hd]; rfl
    rw [ht, e0, e1, hv]
    norm_num

set_option maxRecDepth 100000 in
/-- C6, as stated, fails. The test line sending 02 8C 81 00 0F is accepted
with 40 bits and a matching checksum; bit 7 of byte2 is set, the magnitude
`(((byte2 & 0x7F) << 8) | byte3) / 10` is 256/10, at most 125, and the
temperature written is the `float` -13421773/524288, which is not
-256/10. -/
theorem C6_counterexample :
    (dataPulses (sampling (framePin [0x02, 0x8C, 0x81, 0x00, 0x0F])).2.trace).length = 40 ∧
    (sampling (framePin [0x02, 0x8C, 0x81, 0x00, 0x0F])).2.data =
      [0x02, 0x8C, 0x81, 0x00, 0x0F] ∧
    Nat.testBit 0x81 7 = true ∧
    specMagnitude 0x81 0x00 = 256 / 10 ∧
    specMagnitude 0x81 0x00 ≤ 125 ∧
    read_from_dht 25 (framePin [0x02, 0x8C, 0x81, 0x00, 0x0F]) ⟨0, 0⟩ =
      .returned { humidity := 4272947 / 65536, temp_celsius := -(13421773 / 524288) }
        (startEffects 25 ++
          [.sampling (sampling (framePin [0x02, 0x8C, 0x81, 0x00, 0x0F])).2.reads
             (sampling (framePin [0x02, 0x8C, 0x81, 0x00, 0x0F])).2.delays,
           .gpio_put 25 false]) ∧
    (-(13421773 / 524288) : ℚ) ≠ -specMagnitude 0x81 0x00 := by
  have h40 : (dataPulses (sampling (framePin [0x02, 0x8C, 0x81, 0x00, 0x0F])).2.trace).length
      = 40 := by decide!
  have hd : (sampling (framePin [0x02, 0x8C, 0x81, 0x00, 0x0F])).2.data =
      [0x02, 0x8C, 0x81, 0x00, 0x0F] := by decide!
  have hv : specMagnitude 0x81 0x00 = 256 / 10 := by
    unfold specMagnitude
    rw [show ((0x81 &&& 0x7F) <<< 8 ||| 0x00 : Nat) = 256 from by decide]
    norm_num
  have ha := accepted_outcome 25 (framePin [0x02, 0x8C, 0x81, 0x00, 0x0F]) ⟨0, 0⟩ h40
    (by simp only [frameByte, hd]; rfl)
  rw [hd, humidityOf_02_8C, tempOf_81_00] at ha
  refine ⟨h40, hd, by decide, hv, ?_, ha, ?_⟩
  · rw [hv]; norm_num
  · rw [hv]; norm_num

/-- C6, amended. Sign property: for every run with 40 received bits and a
matching checksum whose magnitude `m = (((byte2 & 0x7F) << 8) | byte3) / 10`
is at most 125, the temperature written is the `float` nearest to `m`,
negated when bit 7 of byte2 is set and as it is when the bit is clear. -/
theorem C6_temperature_sign (led : Nat) (pin : Pin) (result : dht_reading)
    (h40 : (dataPulses (sampling pin).2.trace).length = 40)
    (hsum : frameByte pin 4 =
      (frameByte pin 0 + frameByte pin 1 + frameByte pin 2 + frameByte pin 3) % 256)
    (hm : specMagnitude (frameByte pin 2) (frameByte pin 3) ≤ 125) :
    ∃ humidity, read_from_dht led pin result =
      .returned
        { humidity := humidity,
          temp_celsius :=
            if (frameByte pin 2).testBit 7 = true
            then -toFloat32 (specMagnitude (frameByte pin 2) (frameByte pin 3))
            else toFloat32 (specMagnitude (frameByte pin 2) (frameByte pin 3)) }
        (startEffects led ++
          [.sampling (sampling pin).2.reads (sampling pin).2.delays, .gpio_put led false]) := by
  have hlt := (forty_pulses pin h40).2.2
  refine ⟨humidityOf (sampling pin).2.data, ?_⟩
  rw [accepted_outcome led pin result h40 hsum, tempOf_eq _ (hlt 3)]
  unfold frameByte at hm ⊢
  rw [if_pos hm]

set_option maxRecDepth 100000 in
/-- Witness for the amended C6: the frame 02 8C 81 00 0F, with
byte2 = 0x80 | 0x01 and byte3 = 0. The magnitude is 256/10 and the
temperature written is -13421773/524288, the `float` nearest to -25.6. -/
theorem C6_temperature_sign_witness :
    (dataPulses (sampling (framePin [0x02, 0x8C, 0x81, 0x00, 0x0F])).2.trace).length = 40 ∧
    (sampling (framePin [0x02, 0x8C, 0x81, 0x00, 0x0F])).2.data =
      [0x02, 0x8C, 0x81, 0x00, 0x0F] ∧
    specMagnitude 0x81 0x00 = 256 / 10 ∧
    toFloat32 (256 / 10) = 13421773 / 524288 ∧
    ∃ humidity, read_from_dht 25 (framePin [0x02, 0x8C, 0x81, 0x00, 0x0F]) ⟨0, 0⟩ =
      .returned { humidity := humidity, temp_celsius := -(13421773 / 524288) }
        (startEffects 25 ++
          [.sampling (sampling (framePin [0x02, 0x8C, 0x81, 0x00, 0x0F])).2.reads
             (sampling (framePin [0x02, 0x8C, 0x81, 0x00, 0x0F])).2.delays,
           .gpio_put 25 false]) := by
  have h40 : (dataPulses (sampling (framePin [0x02, 0x8C, 0x81, 0x00, 0x0F])).2.trace).length
      = 40 := by decide!
  have hd : (sampling (framePin [0x02, 0x8C, 0x81, 0x00, 0x0F])).2.data =
      [0x02, 0x8C, 0x81, 0x00, 0x0F] := by decide!
  have hv : specMagnitude 0x81 0x00 = 256 / 10 := by
    unfold specMagnitude
    rw [show ((0x81 &&& 0x7F) <<< 8 ||| 0x00 : Nat) = 256 from by decide]
    norm_num
  have e2 : frameByte (framePin [0x02, 0x8C, 0x81, 0x00, 0x0F]) 2 = 0x81 := by
    rw [frameByte, hd]; rfl
  have e3 : frameByte (framePin [0x02, 0x8C, 0x81, 0x00, 0x0F]) 3 = 0x00 := by
    rw [frameByte, hd]; rfl
  obtain ⟨u, hu⟩ := C6_temperature_sign 25 (framePin [0x02, 0x8C, 0x81, 0x00, 0x0F]) ⟨0, 0⟩
    h40 (by simp only [frameByte, hd]; rfl) (by rw [e2, e3, hv]; norm_num)
  refine ⟨h40, hd, hv, toFloat32_256, u, ?_⟩
  rw [hu, e2, e3, hv]
  have hbit : Nat.testBit 0x81 7 = true := by decide
  rw [if_pos hbit, toFloat32_256]

/-- C7. Temperature fallback: for every run with 40 received bits and a
matching checksum whose magnitude `(((byte2 & 0x7F) << 8) | byte3) / 10`
exceeds 125, the magnitude written is byte2, the whole byte with its sign
bit, and the value is negated exactly when bit 7 of byte2 is set. -/
theorem C7_temperature_fallback (led : Nat) (pin : Pin) (result : dht_reading)
    (h40 : (dataPulses (sampling pin).2.trace).length = 40)
    (hsum : frameByte pin 4 =
      (frameByte pin 0 + frameByte pin 1 + frameByte pin 2 + frameByte pin 3) % 256)
    (hm : 125 < specMagnitude (frameByte pin 2) (frameByte pin 3)) :
    ∃ humidity, read_from_dht led pin result =
      .returned
        { humidity := humidity,
          temp_celsius :=
            if (frameByte pin 2).testBit 7 = true
            then -(frameByte pin 2 : ℚ) else (frameByte pin 2 : ℚ) }
        (startEffects led ++
          [.sampling (sampling pin).2.reads (sampling pin).2.delays, .gpio_put led false]) := by
  have hlt := (forty_pulses pin h40).2.2
  refine ⟨humidityOf (sampling pin).2.data, ?_⟩
  rw [accepted_outcome led pin result h40 hsum, tempOf_eq _ (hlt 3)]
  unfold frameByte at hm ⊢
  rw [if_neg (not_le.2 hm)]

set_option maxRecDepth 100000 in
/-- Witness for C7: the frame 02 8C 85 00 13, with byte2 = 0x85. The
magnitude 1280/10 = 128 exceeds 125 and the temperature written is -133. -/
theorem C7_temperature_fallback_witness :
    (dataPulses (sampling (framePin [0x02, 0x8C, 0x85, 0x00, 0x13])).2.trace).length = 40 ∧
    (sampling (framePin [0x02, 0x8C, 0x85, 0x00, 0x13])).2.data =
      [0x02, 0x8C, 0x85, 0x00, 0x13] ∧
    specMagnitude 0x85 0x00 = 128 ∧
    ∃ humidity, read_from_dht 25 (framePin [0x02, 0x8C, 0x85, 0x00, 0x13]) ⟨0, 0⟩ =
      .returned { humidity := humidity, temp_celsius := -133 }
        (startEffects 25 ++
          [.sampling (sampling (framePin [0x02, 0x8C, 0x85, 0x00, 0x13])).2.reads
             (sampling (framePin [0x02, 0x8C, 0x85, 0x00, 0x13])).2.delays,
           .gpio_put 25 false]) := by
  have h40 : (dataPulses (sampling (framePin [0x02, 0x8C, 0x85, 0x00, 0x13])).2.trace).length
      = 40 := by decide!
  have hd : (sampling (framePin [0x02, 0x8C, 0x85, 0x00, 0x13])).2.data =
      [0x02, 0x8C, 0x85, 0x00, 0x13] := by decide!
  have hv : specMagnitude 0x85 0x00 = 128 := by
    unfold specMagnitude
    rw [show ((0x85 &&& 0x7F) <<< 8 ||| 0x00 : Nat) = 1280 from by decide]
    norm_num
  have e2 : frameByte (framePin [0x02, 0x8C, 0x85, 0x00, 0x13]) 2 = 0x85 := by
    rw [frameByte, hd]; rfl
  have e3 : frameByte (framePin [0x02, 0x8C, 0x85, 0x00, 0x13]) 3 = 0x00 := by
    rw [frameByte, hd]; rfl
  obtain ⟨u, hu⟩ := C7_temperature_fallback 25 (framePin [0x02, 0x8C, 0x85, 0x00, 0x13])
    ⟨0, 0⟩ h40 (by simp only [frameByte, hd]; rfl) (by rw [e2, e3, hv]; norm_num)
  refine ⟨h40, hd, hv, u, ?_⟩
  rw [hu, e2]
  have hbit : Nat.testBit 0x85 7 = true := by decide
  rw [if_pos hbit]
  norm_num

/-- C8. Timeout property: when fewer than 4 durations are recorded before the
per-edge timeout (none at all included), the loop ends by the timeout and not
at a store outside `data`, no store to `data` has been made, `data` is still
all zero, `received_data_bits` is 0, and `read_from_dht` rejects: `*result`
keeps its contents and "Bad data" is printed. -/
theorem C8_short_sequence (led : Nat) (pin : Pin) (result : dht_reading)
    (h : (sampling pin).2.trace.length < 4) :
    (sampling pin).1 = .timed_out ∧
    (sampling pin).2.data_writes = 0 ∧
    (sampling pin).2.data = [0, 0, 0, 0, 0] ∧
    (sampling pin).2.received_data_bits = 0 ∧
    read_from_dht led pin result =
      .returned result (startEffects led ++
        [.sampling (sampling pin).2.reads (sampling pin).2.delays, .gpio_put led false,
         .printf "Bad data\n"]) := by
  have hf := sampling_final pin
  have ht : (sampling pin).1 = .timed_out := hf.timed_out_iff.2 (by omega)
  have hdec := hf.dec
  rw [decoded_short _ (by omega)] at hdec
  have hd : (sampling pin).2.data = [0, 0, 0, 0, 0] := congrArg Prod.fst hdec
  have hb : (sampling pin).2.received_data_bits = 0 := congrArg Prod.snd hdec
  have hw := hf.wr
  refine ⟨ht, by omega, hd, hb, ?_⟩
  unfold read_from_dht
  rw [show sampling pin = (.timed_out, (sampling pin).2) from Prod.ext ht rfl]
  apply conclude_rejected
  simp [frameValid, hb]

set_option maxRecDepth 100000 in
/-- Witness for C8: a line that makes three transitions and then stays
low. -/
theorem C8_short_sequence_witness :
    (sampling (pinOfDurations [5, 80, 80])).2.trace = [5, 80, 80] ∧
    ((sampling (pinOfDurations [5, 80, 80])).1 = .timed_out ∧
     (sampling (pinOfDurations [5, 80, 80])).2.data_writes = 0 ∧
     (sampling (pinOfDurations [5, 80, 80])).2.data = [0, 0, 0, 0, 0] ∧
     (sampling (pinOfDurations [5, 80, 80])).2.received_data_bits = 0 ∧
     read_from_dht 25 (pinOfDurations [5, 80, 80]) ⟨1, 2⟩ =
       .returned ⟨1, 2⟩ (startEffects 25 ++
         [.sampling (sampling (pinOfDurations [5, 80, 80])).2.reads
            (sampling (pinOfDurations [5, 80, 80])).2.delays,
          .gpio_put 25 false, .printf "Bad data\n"])) :=
  ⟨by decide!, C8_short_sequence 25 (pinOfDurations [5, 80, 80]) ⟨1, 2⟩ (by decide!)⟩

/-- C9. Sampler timeout. (1) In any iteration of the sampling loop, entered
in any state `s`, if the line is at the tracked level on 255 consecutive
polls, the loop ends in that iteration by the timeout: nothing is recorded or
appended, and `data`, `received_data_bits` and every other variable but
`previous_pin_state` and the counters of reads and delays keep their values.
(2) When a call ends its sampling by the timeout, what the line does from the
read after those 255 polls on does not matter: every line that agrees with it
before gives the same outcome of `read_from_dht`. (3) Every recorded duration
is below 255. -/
theorem C9_sampler_timeout :
    (∀ (pin : Pin) (fuel : Nat) (s : LoopState), s.i < MAX_TIMINGS →
      (∀ k, k < 255 → pin (s.reads + k) = s.previous_pin_state) →
      forLoop pin (fuel + 1) s =
        (.timed_out, { s with
          previous_pin_state := pin (s.reads + 255), reads := s.reads + 256,
          delays := s.delays + 255 })) ∧
    (∀ (pin pin2 : Pin) (led : Nat) (result : dht_reading),
      (sampling pin).1 = .timed_out →
      (∀ n, n + 1 < (sampling pin).2.reads → pin2 n = pin n) →
      read_from_dht led pin2 result = read_from_dht led pin result) ∧
    (∀ (pin : Pin) (d : Nat), d ∈ (sampling pin).2.trace → d < 255) := by
  refine ⟨forLoop_timeout, ?_, fun pin d hd => (sampling_final pin).tr d hd⟩
  intro pin pin2 led result hto hag
  have hs : sampling pin = (.timed_out, (sampling pin).2) := Prod.ext hto rfl
  have h2 := forLoop_agree pin pin2 _ _ _ hs hag
  unfold read_from_dht
  rw [show sampling pin2 = _ from h2, conclude_previous_pin_state, ← hs]

set_option maxRecDepth 100000 in
/-- Witness for C9: on a line that stays high the first iteration times out
with the initial variables, and a line that goes low after 255 reads gives
the same outcome. -/
theorem C9_sampler_timeout_witness :
    forLoop (fun _ => true) 86 LoopState.init =
      (.timed_out, { LoopState.init with
        previous_pin_state := true, reads := 256, delays := 255 }) ∧
    read_from_dht 25 (fun n => decide (n < 255)) ⟨1, 2⟩ =
      read_from_dht 25 (fun _ => true) ⟨1, 2⟩ ∧
    (∀ d, d ∈ (sampling (pinOfDurations [5, 80, 80])).2.trace → d < 255) :=
  ⟨C9_sampler_timeout.1 (fun _ => true) 85 LoopState.init (by decide) (fun _ _ => rfl),
   C9_sampler_timeout.2.1 (fun _ => true) (fun n => decide (n < 255)) 25 ⟨1, 2⟩
     (by decide!) (by
       have h : (sampling (fun _ => true)).2.reads = 256 := by decide!
       intro n hn
       rw [h] at hn
       simp only [decide_eq_true_eq]
       omega),
   C9_sampler_timeout.2.2 (pinOfDurations [5, 80, 80])⟩

/-- C10. Bounded sampling: for every behaviour of the line, the sampling loop
ends (the model never runs out of fuel, and more fuel gives the same result),
it ends in an iteration with index below `MAX_TIMINGS`, so that at most 85
iterations are started, the inner loop of every iteration polls the line at
most 255 times and counts to at most 255 (line 96 reads the line once more,
after the inner loop), and the call makes at most 85 * 255 = 21675 delays of
one microsecond. -/
theorem C10_bounded_sampling (pin : Pin) :
    (∀ fuel, MAX_TIMINGS + 1 ≤ fuel → forLoop pin fuel LoopState.init = sampling pin) ∧
    (sampling pin).1 ≠ .out_of_fuel ∧
    (sampling pin).2.i < MAX_TIMINGS ∧
    (∀ prev reads, ∃ count reads1,
      pollWhile pin prev 255 reads 0 = some (count, reads1) ∧
      count ≤ 255 ∧ reads1 ≤ reads + 255) ∧
    (sampling pin).2.delays ≤ 85 * 255 ∧
    85 * 255 = 21675 := by
  have hf := sampling_final pin
  refine ⟨?_, hf.ne_out_of_fuel, hf.lt, ?_, ?_, by norm_num⟩
  · intro fuel hfuel
    exact forLoop_fuel_mono pin _ _ _ hf.ne_out_of_fuel hfuel
  · intro prev reads
    obtain ⟨c, -, hc2, -, hc4⟩ := pollWhile_spec pin prev 255 reads 0 (by decide) (by decide)
    simp only [Nat.sub_zero] at hc4
    rcases hc4 with ⟨rfl, hp⟩ | ⟨hlt, -, hp⟩
    · exact ⟨_, _, hp, le_refl _, le_refl _⟩
    · exact ⟨_, _, hp, hc2, by omega⟩
  · have h1 := hf.dl
    have h2 := hf.lt
    unfold MAX_TIMINGS at h2
    omega

set_option maxRecDepth 100000 in
/-- Witness for C10: a line that stays high. The loop ends in iteration 0
after 255 delays. -/
theorem C10_bounded_sampling_witness :
    (sampling (fun _ => true)).2.i = 0 ∧
    (sampling (fun _ => true)).2.delays = 255 ∧
    (sampling (fun _ => true)).2.delays ≤ 85 * 255 :=
  ⟨by decide!, by decide!, (C10_bounded_sampling (fun _ => true)).2.2.2.2.1⟩

/-- C11. Start condition: on every call, on a board whose LED pin is not the
data pin, the calls of `read_from_dht` begin with: set `DHT_PIN` to output,
write level 0 to `DHT_PIN`, delay 20 ms, set `DHT_PIN` to input. The LED is
switched on and the sampling of the data line follows. These are the only
calls of the whole call that set the direction of the data pin or write to
it, each made once, and the only delay of 20 ms. -/
theorem C11_start_condition (led : Nat) (pin : Pin) (result : dht_reading)
    (hled : led ≠ DHT_PIN) :
    (∃ rest, callsMade led pin result =
        [.gpio_set_dir DHT_PIN GPIO_OUT, .gpio_put DHT_PIN false, .sleep_ms 20,
         .gpio_set_dir DHT_PIN GPIO_IN] ++
        ([.gpio_put led true,
          .sampling (sampling pin).2.reads (sampling pin).2.delays] ++ rest) ∧
      ∀ e, e ∈ rest → e = .gpio_put led false ∨ e = .printf "Bad data\n") ∧
    (callsMade led pin result).filter drivesDataPin =
      [.gpio_set_dir DHT_PIN GPIO_OUT, .gpio_put DHT_PIN false,
       .gpio_set_dir DHT_PIN GPIO_IN] ∧
    (callsMade led pin result).count (.sleep_ms 20) = 1 := by
  obtain ⟨rest, hc, hrest⟩ := callsMade_cases led pin result
  have hl : (led == DHT_PIN) = false := by simpa using hled
  rw [hc]
  rcases hrest with rfl | rfl | rfl
  · refine ⟨⟨[], rfl, by simp⟩, ?_, ?_⟩
    · simp [startEffects, drivesDataPin, hl]
    · simp [startEffects, List.count_cons]
  · refine ⟨⟨_, rfl, by simp⟩, ?_, ?_⟩
    · simp [startEffects, drivesDataPin, hl]
    · simp [startEffects, List.count_cons]
  · refine ⟨⟨_, rfl, by simp⟩, ?_, ?_⟩
    · simp [startEffects, drivesDataPin, hl]
    · simp [startEffects, List.count_cons]

set_option maxRecDepth 100000 in
/-- Witness for C11: LED pin 25 and a line that stays high. -/
theorem C11_start_condition_witness :
    (25 : Nat) ≠ DHT_PIN ∧
    callsMade 25 (fun _ => true) ⟨1, 2⟩ =
      [.gpio_set_dir DHT_PIN GPIO_OUT, .gpio_put DHT_PIN false, .sleep_ms 20,
       .gpio_set_dir DHT_PIN GPIO_IN, .gpio_put 25 true, .sampling 256 255,
       .gpio_put 25 false, .printf "Bad data\n"] ∧
    (callsMade 25 (fun _ => true) ⟨1, 2⟩).filter drivesDataPin =
      [.gpio_set_dir DHT_PIN GPIO_OUT, .gpio_put DHT_PIN false,
       .gpio_set_dir DHT_PIN GPIO_IN] :=
  ⟨by decide, by decide!,
   (C11_start_condition 25 (fun _ => true) ⟨1, 2⟩ (by decide)).2.1⟩

set_option maxRecDepth 100000 in
/-- C12 fails on the code. On a line that sends a frame and makes one more
transition before the timeout, 85 durations are recorded; in the iteration
with `i = 84` the loop appends a 41st bit with `received_data_bits = 40`, so
the store `data[received_data_bits / 8] <<= 1` goes to index 5 of
`int data[5]`. The same happens on a line that changes at every read. For
every line the loop ends at that store exactly when 85 durations are
recorded. -/
theorem C12_store_outside_data :
    ((sampling (framePinExtra [0x02, 0x8C, 0x01, 0x05, 0x94])).1 = .out_of_bounds ∧
     (sampling (framePinExtra [0x02, 0x8C, 0x01, 0x05, 0x94])).2.i = 84 ∧
     (sampling (framePinExtra [0x02, 0x8C, 0x01, 0x05, 0x94])).2.trace.length = 85 ∧
     (sampling (framePinExtra [0x02, 0x8C, 0x01, 0x05, 0x94])).2.received_data_bits = 40 ∧
     (sampling (framePinExtra [0x02, 0x8C, 0x01, 0x05, 0x94])).2.received_data_bits / 8 = 5 ∧
     (sampling (framePinExtra [0x02, 0x8C, 0x01, 0x05, 0x94])).2.data.length = 5 ∧
     appendBit 3 (sampling (framePinExtra [0x02, 0x8C, 0x01, 0x05, 0x94])).2 = none ∧
     read_from_dht 25 (framePinExtra [0x02, 0x8C, 0x01, 0x05, 0x94]) ⟨0, 0⟩ =
       .undefined .out_of_bounds) ∧
    ((sampling (fun n => n % 2 == 1)).1 = .out_of_bounds ∧
     (sampling (fun n => n % 2 == 1)).2.i = 84 ∧
     (sampling (fun n => n % 2 == 1)).2.received_data_bits / 8 = 5) ∧
    (∀ pin : Pin, (sampling pin).1 = .out_of_bounds ↔ (sampling pin).2.trace.length = 85) := by
  refine ⟨⟨by decide!, by decide!, by decide!, by decide!, by decide!, by decide!,
    by decide!, by decide!⟩, ⟨by decide!, by decide!, by decide!⟩, ?_⟩
  intro pin
  have hf := sampling_final pin
  have hlt := hf.lt
  unfold MAX_TIMINGS at hlt
  rcases hf.exit with ⟨he, hl⟩ | ⟨he, -, hl⟩
  · rw [he]; simp; omega
  · rw [he]; simp [hl]

/-- C13. Preamble and gaps are ignored: two runs that record the same number
of durations, and whose durations at every even loop index from 4 on lie on
the same side of the threshold 16 (equal durations included), end the loop
in the same way with identical `data` and `received_data_bits`, whatever the
durations at the indices 0..3 and at the odd indices; `read_from_dht` then
does on the second line what it does from the variables of the first, the
counters of reads and delays apart. -/
theorem C13_preamble_and_gaps (pin1 pin2 : Pin)
    (hlen : (sampling pin1).2.trace.length = (sampling pin2).2.trace.length)
    (hside : ∀ k, k < ((sampling pin1).2.trace.length - 3) / 2 →
      (16 < (sampling pin1).2.trace.getD (4 + 2 * k) 0 ↔
       16 < (sampling pin2).2.trace.getD (4 + 2 * k) 0)) :
    (sampling pin1).1 = (sampling pin2).1 ∧
    (sampling pin1).2.data = (sampling pin2).2.data ∧
    (sampling pin1).2.received_data_bits = (sampling pin2).2.received_data_bits ∧
    ∀ led result, read_from_dht led pin2 result =
      conclude led result ((sampling pin1).1, { (sampling pin1).2 with
        reads := (sampling pin2).2.reads, delays := (sampling pin2).2.delays }) := by
  have h1 := sampling_final pin1
  have h2 := sampling_final pin2
  have hdec : ((sampling pin1).2.data, (sampling pin1).2.received_data_bits) =
      ((sampling pin2).2.data, (sampling pin2).2.received_data_bits) := by
    rw [h1.dec, h2.dec]
    exact decoded_congr _ _ hlen hside
  have hd := congrArg Prod.fst hdec
  have hb := congrArg Prod.snd hdec
  simp only at hd hb
  have he : (sampling pin1).1 = (sampling pin2).1 := by
    by_cases hle : (sampling pin1).2.trace.length ≤ 84
    · rw [h1.timed_out_iff.2 hle, h2.timed_out_iff.2 (by omega)]
    · have e1 : (sampling pin1).1 = .out_of_bounds := by
        rcases h1.exit with ⟨-, hl⟩ | ⟨he, -⟩
        · have := h1.lt; unfold MAX_TIMINGS at this; omega
        · exact he
      have e2 : (sampling pin2).1 = .out_of_bounds := by
        rcases h2.exit with ⟨-, hl⟩ | ⟨he, -⟩
        · have := h2.lt; unfold MAX_TIMINGS at this; omega
        · exact he
      rw [e1, e2]
  refine ⟨he, hd, hb, ?_⟩
  intro led result
  unfold read_from_dht
  rw [show sampling pin2 = ((sampling pin1).1, (sampling pin2).2) from Prod.ext he.symm rfl]
  exact conclude_congr _ _ _ _ _ hd.symm hb.symm rfl rfl

set_option maxRecDepth 100000 in
/-- Witness for C13: the frame 02 8C 01 05 94 sent with pulses of 16 and 17
counts and gaps of 3, and sent with pulses of 2 and 30 counts and gaps of
7. -/
theorem C13_preamble_and_gaps_witness :
    (sampling (framePin [0x02, 0x8C, 0x01, 0x05, 0x94])).2.trace ≠
      (sampling (pinOfDurations
        (frameDurations 2 30 7 (frameBits [0x02, 0x8C, 0x01, 0x05, 0x94])))).2.trace ∧
    (sampling (framePin [0x02, 0x8C, 0x01, 0x05, 0x94])).2.data =
      (sampling (pinOfDurations
        (frameDurations 2 30 7 (frameBits [0x02, 0x8C, 0x01, 0x05, 0x94])))).2.data ∧
    (sampling (pinOfDurations
        (frameDurations 2 30 7 (frameBits [0x02, 0x8C, 0x01, 0x05, 0x94])))).2.data =
      [0x02, 0x8C, 0x01, 0x05, 0x94] :=
  ⟨by decide!,
   (C13_preamble_and_gaps (framePin [0x02, 0x8C, 0x01, 0x05, 0x94])
      (pinOfDurations (frameDurations 2 30 7 (frameBits [0x02, 0x8C, 0x01, 0x05, 0x94])))
      (by decide!) (by decide!)).2.1,
   by decide!⟩

/-- C14. Byte-range invariant: after any number of passes through the
sampling loop, and at its end, `data` has five elements, at most 40 bits have
been appended, every element of `data` is below 256, and the element the
next bit goes to is below 128, so that it stays below 256 when shifted. The
frame handed to validation is five bytes and `data[4]` is compared with a
byte. -/
theorem C14_byte_range (pin : Pin) (fuel : Nat) :
    (forLoop pin fuel LoopState.init).2.data.length = 5 ∧
    (forLoop pin fuel LoopState.init).2.received_data_bits ≤ 40 ∧
    (∀ j, (forLoop pin fuel LoopState.init).2.data.getD j 0 < 256) ∧
    ((forLoop pin fuel LoopState.init).2.received_data_bits < 40 →
      (forLoop pin fuel LoopState.init).2.data.getD
        ((forLoop pin fuel LoopState.init).2.received_data_bits / 8) 0 < 128) ∧
    (sampling pin).2.data.length = 5 ∧
    (∀ j, (sampling pin).2.data.getD j 0 < 256) ∧
    ((sampling pin).2.data.getD 0 0 + (sampling pin).2.data.getD 1 0 +
      (sampling pin).2.data.getD 2 0 + (sampling pin).2.data.getD 3 0) &&& 0xFF < 256 := by
  have key : ∀ fuel1,
      (forLoop pin fuel1 LoopState.init).2.data.length = 5 ∧
      (forLoop pin fuel1 LoopState.init).2.received_data_bits ≤ 40 ∧
      (∀ j, (forLoop pin fuel1 LoopState.init).2.data.getD j 0 < 256) ∧
      ((forLoop pin fuel1 LoopState.init).2.received_data_bits < 40 →
        (forLoop pin fuel1 LoopState.init).2.data.getD
          ((forLoop pin fuel1 LoopState.init).2.received_data_bits / 8) 0 < 128) := by
    intro fuel1
    obtain ⟨bits, hlen, hp⟩ := state_is_pack pin fuel1
    have hd := congrArg Prod.fst hp
    have hb := congrArg Prod.snd hp
    simp only at hd hb
    rw [hd, hb, pack_snd]
    refine ⟨pack_fst_length bits, hlen, ?_, ?_⟩
    · intro j
      refine lt_of_lt_of_le (pack_getD_lt bits hlen j) ?_
      calc 2 ^ (min 8 (bits.length - 8 * j)) ≤ 2 ^ 8 :=
            Nat.pow_le_pow_right (by decide) (Nat.min_le_left _ _)
        _ = 256 := by norm_num
    · intro hlt
      refine lt_of_lt_of_le (pack_getD_lt bits hlen (bits.length / 8)) ?_
      calc 2 ^ (min 8 (bits.length - 8 * (bits.length / 8))) ≤ 2 ^ 7 :=
            Nat.pow_le_pow_right (by decide) (by omega)
        _ = 128 := by norm_num
  obtain ⟨k1, k2, k3, k4⟩ := key fuel
  obtain ⟨f1, -, f3, -⟩ := key (MAX_TIMINGS + 1)
  refine ⟨k1, k2, k3, k4, f1, f3, ?_⟩
  rw [and_255]
  exact Nat.mod_lt _ (by decide)

set_option maxRecDepth 100000 in
/-- Witness for C14: after 19 passes on a line sending a frame that begins
with FF, eight bits have been appended and `data[0]` is 255. -/
theorem C14_byte_range_witness :
    (forLoop (framePin [0xFF, 0x8C, 0x01, 0x05, 0x94]) 19 LoopState.init).2.data =
      [255, 0, 0, 0, 0] ∧
    (forLoop (framePin [0xFF, 0x8C, 0x01, 0x05, 0x94]) 19 LoopState.init).2.received_data_bits
      = 8 ∧
    ∀ j, (forLoop (framePin [0xFF, 0x8C, 0x01, 0x05, 0x94]) 19 LoopState.init).2.data.getD j 0
      < 256 :=
  ⟨by decide!, by decide!,
   (C14_byte_range (framePin [0xFF, 0x8C, 0x01, 0x05, 0x94]) 19).2.2.1⟩

/-- C15. No partial update on rejection: in every run that reaches the
validation of line 116 and fails it, because fewer than 40 bits were received
or because the checksum does not match, `read_from_dht` returns with both
fields of `*result` as they were on entry; its calls are those of an
accepting run followed by the message "Bad data", the same for both
causes. -/
theorem C15_no_partial_update (led : Nat) (pin : Pin) (result : dht_reading)
    (hrun : (sampling pin).1 = .timed_out)
    (hfail : (sampling pin).2.received_data_bits < 40 ∨
      frameByte pin 4 ≠
        (frameByte pin 0 + frameByte pin 1 + frameByte pin 2 + frameByte pin 3) % 256) :
    read_from_dht led pin result =
      .returned result
        ((startEffects led ++
          [.sampling (sampling pin).2.reads (sampling pin).2.delays, .gpio_put led false]) ++
         [.printf "Bad data\n"]) := by
  unfold read_from_dht
  rw [show sampling pin = (.timed_out, (sampling pin).2) from Prod.ext hrun rfl,
    conclude_rejected]
  · simp
  · rw [Bool.eq_false_iff]
    intro hv
    obtain ⟨h40, hsum⟩ := (frameValid_iff _ _).1 hv
    rcases hfail with h | h
    · omega
    · exact h hsum

set_option maxRecDepth 100000 in
/-- Witness for C15: a line that stays high (no bits) and a line sending
02 8C 01 05 92 (40 bits, wrong checksum) are rejected in the same way. -/
theorem C15_no_partial_update_witness :
    (sampling (fun _ => true)).2.received_data_bits = 0 ∧
    (sampling (framePin [0x02, 0x8C, 0x01, 0x05, 0x92])).2.received_data_bits = 40 ∧
    read_from_dht 25 (fun _ => true) ⟨1, 2⟩ =
      .returned ⟨1, 2⟩
        ((startEffects 25 ++
          [.sampling (sampling (fun _ => true)).2.reads (sampling (fun _ => true)).2.delays,
           .gpio_put 25 false]) ++ [.printf "Bad data\n"]) ∧
    read_from_dht 25 (framePin [0x02, 0x8C, 0x01, 0x05, 0x92]) ⟨1, 2⟩ =
      .returned ⟨1, 2⟩
        ((startEffects 25 ++
          [.sampling (sampling (framePin [0x02, 0x8C, 0x01, 0x05, 0x92])).2.reads
             (sampling (framePin [0x02, 0x8C, 0x01, 0x05, 0x92])).2.delays,
           .gpio_put 25 false]) ++ [.printf "Bad data\n"]) :=
  ⟨by decide!, by decide!,
   C15_no_partial_update 25 (fun _ => true) ⟨1, 2⟩ (by decide!) (Or.inl (by decide!)),
   C15_no_partial_update 25 (framePin [0x02, 0x8C, 0x01, 0x05, 0x92]) ⟨1, 2⟩
     (by decide!) (Or.inr (by decide!))⟩

/-- C16. Bit count from transition count: when `n` durations, at most 84, are
recorded before sampling stops, the loop ends by the timeout with
`received_data_bits = 0` for `n` up to 4 and the ceiling of `(n - 4) / 2`
beyond. With fewer than 83 recorded durations every call rejects, so a call
that returns without the message "Bad data" has recorded at least 83. -/
theorem C16_bit_count (pin : Pin) (hn : (sampling pin).2.trace.length ≤ 84) :
    (sampling pin).1 = .timed_out ∧
    (sampling pin).2.received_data_bits =
      (if (sampling pin).2.trace.length ≤ 4 then 0
       else ((sampling pin).2.trace.length - 4 + 1) / 2) ∧
    ((sampling pin).2.trace.length < 83 → ∀ led result,
      read_from_dht led pin result =
        .returned result (startEffects led ++
          [.sampling (sampling pin).2.reads (sampling pin).2.delays, .gpio_put led false,
           .printf "Bad data\n"])) ∧
    (∀ led result reading effects,
      read_from_dht led pin result = .returned reading effects →
      Effect.printf "Bad data\n" ∉ effects → 83 ≤ (sampling pin).2.trace.length) := by
  have hf := sampling_final pin
  have ht : (sampling pin).1 = .timed_out := hf.timed_out_iff.2 hn
  have hb := hf.bits
  have hrej : (sampling pin).2.trace.length < 83 → ∀ led result,
      read_from_dht led pin result =
        .returned result (startEffects led ++
          [.sampling (sampling pin).2.reads (sampling pin).2.delays, .gpio_put led false,
           .printf "Bad data\n"]) := by
    intro hlt led result
    unfold read_from_dht
    rw [show sampling pin = (.timed_out, (sampling pin).2) from Prod.ext ht rfl]
    apply conclude_rejected
    rw [Bool.eq_false_iff]
    intro hv
    have := ((frameValid_iff _ _).1 hv).1
    omega
  refine ⟨ht, ?_, hrej, ?_⟩
  · split <;> omega
  · intro led result reading effects hret hno
    by_contra hlt
    rw [hrej (by omega) led result] at hret
    injection hret with h1 h2
    apply hno
    rw [← h2]
    simp

set_option maxRecDepth 100000 in
/-- Witness for C16: seven recorded durations give two bits. -/
theorem C16_bit_count_witness :
    (sampling (pinOfDurations [3, 3, 3, 3, 17, 3, 17])).2.trace.length = 7 ∧
    (sampling (pinOfDurations [3, 3, 3, 3, 17, 3, 17])).2.received_data_bits = 2 ∧
    (sampling (pinOfDurations [3, 3, 3, 3, 17, 3, 17])).2.received_data_bits =
      (if (sampling (pinOfDurations [3, 3, 3, 3, 17, 3, 17])).2.trace.length ≤ 4 then 0
       else ((sampling (pinOfDurations [3, 3, 3, 3, 17, 3, 17])).2.trace.length - 4 + 1) / 2) :=
  ⟨by decide!, by decide!,
   (C16_bit_count (pinOfDurations [3, 3, 3, 3, 17, 3, 17]) (by decide!)).2.1⟩

/-- C17. Reach of the humidity clamp: for every run with 40 received bits and
a matching checksum, the humidity written is not negative, it exceeds 100
exactly when byte0 exceeds 100, and it is at most 100 when byte0 is at most
100. -/
theorem C17_humidity_range (led : Nat) (pin : Pin) (result : dht_reading)
    (h40 : (dataPulses (sampling pin).2.trace).length = 40)
    (hsum : frameByte pin 4 =
      (frameByte pin 0 + frameByte pin 1 + frameByte pin 2 + frameByte pin 3) % 256) :
    ∃ reading, read_from_dht led pin result =
        .returned reading
          (startEffects led ++
            [.sampling (sampling pin).2.reads (sampling pin).2.delays, .gpio_put led false]) ∧
      0 ≤ reading.humidity ∧
      (100 < reading.humidity ↔ 100 < frameByte pin 0) ∧
      (frameByte pin 0 ≤ 100 → reading.humidity ≤ 100) := by
  obtain ⟨h0, h1⟩ := humidityOf_range (sampling pin).2.data
  refine ⟨_, accepted_outcome led pin result h40 hsum, h0, h1, ?_⟩
  intro hle
  by_contra hgt
  have := h1.1 (not_le.1 hgt)
  unfold frameByte at hle
  omega

set_option maxRecDepth 100000 in
/-- Witness for C17: the frame C8 00 01 05 CE, with byte0 = 200, is accepted
and the humidity written is 200. -/
theorem C17_humidity_range_witness :
    (sampling (framePin [200, 0, 1, 5, 206])).2.data = [200, 0, 1, 5, 206] ∧
    ∃ reading, read_from_dht 25 (framePin [200, 0, 1, 5, 206]) ⟨0, 0⟩ =
        .returned reading
          (startEffects 25 ++
            [.sampling (sampling (framePin [200, 0, 1, 5, 206])).2.reads
               (sampling (framePin [200, 0, 1, 5, 206])).2.delays, .gpio_put 25 false]) ∧
      100 < reading.humidity := by
  have hd : (sampling (framePin [200, 0, 1, 5, 206])).2.data = [200, 0, 1, 5, 206] := by
    decide!
  obtain ⟨r, hr, -, h2, -⟩ := C17_humidity_range 25 (framePin [200, 0, 1, 5, 206]) ⟨0, 0⟩
    (by decide!) (by simp only [frameByte, hd]; rfl)
  refine ⟨hd, r, hr, h2.2 ?_⟩
  simp only [frameByte, hd]
  decide

end DHT
